import Mathlib

/-!
WebSocket session core of khttpd (`framework/websocket/websocket_session.cpp`).

A shallow embedding of `khttpd::framework::WebsocketSession`: the static
session directory `m_sessions_id_`, the completion handlers `on_handshake`,
`on_read`, `on_write`, the teardown `do_close`, and the three `send_message`
overloads.  State is passed explicitly.  Every call that leaves the session
core (a router dispatch, an asynchronous operation handed to the stream, a
mutation of the directory) is appended to a trace in program order, so that
statements about "what was issued, and in which order" are statements about
lists.  The string created by `std::make_shared` in `send_message` is kept in
a store with its owner count, so that the buffer handed to `async_write` is a
view whose lifetime can be followed.  The `fmt::print` logging calls are not
modelled.
-/

namespace khttpd.framework

/-! ## Error codes -/

/-- The error categories that the session code tells apart. -/
inductive ErrorCategory where
  | system
  | websocket
  | asio_misc
  | other (tag : Nat)
  deriving DecidableEq, Repr

/-- A `beast::error_code`: an integer value inside a category. -/
structure ErrorCode where
  value : Int
  category : ErrorCategory
  deriving DecidableEq, Repr

/-- The contextual conversion `if (ec)`: true exactly when the value is non-zero. -/
def ErrorCode.failed (ec : ErrorCode) : Bool := ec.value != 0

/-- A default-constructed (success) error code. -/
def ec_success : ErrorCode := ⟨0, .system⟩

/-- The code `ws::error::closed` (value 1 of the Beast WebSocket category). -/
def ws_error_closed : ErrorCode := ⟨1, .websocket⟩

/-- The code `boost::asio::error::eof` (value 2 of the Asio misc category). -/
def asio_error_eof : ErrorCode := ⟨2, .asio_misc⟩

/-- The code `ECONNRESET` of the system category (104 on Linux). -/
def connection_reset : ErrorCode := ⟨104, .system⟩

/-- The condition of the first branch of `do_close`:
`ec && ec != ws::error::closed && ec != boost::asio::error::eof`. -/
def is_transport_error (ec : ErrorCode) : Bool :=
  ec.failed && (ec != ws_error_closed) && (ec != asio_error_eof)

/-! ## Data model -/

/-- A byte string (`std::string` payloads and the contents of `buffer_`). -/
abbrev Bytes := List UInt8

/-- One `WebsocketSession` object.  `id` and `initial_path_` are set by the
constructor and never assigned again.  The remaining fields are the state of
the stream `ws_` and of `buffer_`. -/
structure WebsocketSession where
  id : String
  initial_path_ : String
  buffer_ : Bytes
  /-- The value `ws_.got_text()` reports: whether the last message read is text. -/
  got_text : Bool
  /-- The outgoing-frame option set by `ws_.text(b)`. -/
  text : Bool
  /-- The handshake operation has been issued and has not completed. -/
  handshake_pending : Bool
  /-- The reads issued by `ws_.async_read` that have not completed. -/
  reads_in_flight : Nat
  /-- The writes issued by `ws_.async_write` that have not completed. -/
  writes_in_flight : Nat

/-- An event handed to the router.  Every dispatch in the source passes
`initial_path_` both as the route and as the path of the context, so one
`path` field stands for both.  `session` is the `shared_from_this()` handle. -/
inductive Event where
  | opened (session : Nat) (path : String)
  | message (session : Nat) (path : String) (payload : Bytes) (is_text : Bool)
  | error (session : Nat) (path : String) (ec : ErrorCode)
  | close (session : Nat) (path : String) (ec : ErrorCode)
  deriving DecidableEq

/-- What leaves the session core, in program order. -/
inductive Effect where
  /-- One of `websocket_router_.dispatch_open/message/error/close`. -/
  | dispatch (e : Event)
  /-- The call `ws_.async_read(buffer_, ...)`, with the contents of `buffer_` at the call. -/
  | async_read (session : Nat) (buffer : Bytes)
  /-- The call `ws_.async_write(net::buffer(*ss), ...)`: the buffer is a view, the
  address `data` of the string and its `size`; `is_text` is the frame option in
  force. -/
  | async_write (session : Nat) (data : Nat) (size : Nat) (is_text : Bool)
  /-- The statement `m_sessions_id_[id] = shared_from_this()`. -/
  | registry_assign (id : String) (session : Nat)
  /-- The statement `m_sessions_id_.erase(item)`. -/
  | registry_erase (id : String)
  deriving DecidableEq

/-! ## The directory `std::map<std::string, std::shared_ptr<WebsocketSession>>` -/

/-- Keys strictly increasing in the lexicographic order of `std::less<std::string>`:
the order in which a `std::map` holds its entries. -/
def KeysAscending (l : List (String × Nat)) : Prop :=
  l.Pairwise (fun a b => a.1.data < b.1.data)

instance (l : List (String × Nat)) : Decidable (KeysAscending l) := by
  unfold KeysAscending; infer_instance

/-- The lookup `find(id)` on the entries, `none` standing for `end()`. -/
def find_entries : List (String × Nat) → String → Option Nat
  | [], _ => none
  | (k, v) :: rest, id => if k = id then some v else find_entries rest id

/-- The effect of `operator[](id) = v` on the entries: the value of an existing
key is replaced, a new key is inserted at its place in the order. -/
def assign_entries : List (String × Nat) → String → Nat → List (String × Nat)
  | [], id, v => [(id, v)]
  | (k, x) :: rest, id, v =>
    if id.data < k.data then (id, v) :: (k, x) :: rest
    else if k = id then (id, v) :: rest
    else (k, x) :: assign_entries rest id v

/-- The loop of `do_close`: walk the entries from `begin()`, erase the first one
whose key equals `id`, and stop. -/
def erase_entries : List (String × Nat) → String → List (String × Nat)
  | [], _ => []
  | (k, v) :: rest, id => if k = id then rest else (k, v) :: erase_entries rest id

/-- The static member `m_sessions_id_`: entries with strictly increasing keys,
hence at most one entry per key. -/
structure SessionMap where
  entries : List (String × Nat)
  ascending : KeysAscending entries

/-- The empty map the static member is initialised with. -/
def SessionMap.empty : SessionMap := ⟨[], List.Pairwise.nil⟩

/-- The call `m_sessions_id_.find(id)`, `none` standing for `end()`. -/
def SessionMap.find (m : SessionMap) (id : String) : Option Nat :=
  find_entries m.entries id

/-- The keys of the directory, in order. -/
def SessionMap.keys (m : SessionMap) : List String := m.entries.map Prod.fst

/-- The statement `m_sessions_id_[id] = v`. -/
def SessionMap.assign (m : SessionMap) (id : String) (v : Nat) : SessionMap where
  entries := assign_entries m.entries id v
  ascending := by
    have mem : ∀ (l : List (String × Nat)) (p : String × Nat),
        p ∈ assign_entries l id v → p = (id, v) ∨ p ∈ l := by
      intro l
      induction l with
      | nil => intro p hp; simp [assign_entries] at hp; exact Or.inl hp
      | cons a rest ih =>
        intro p hp
        obtain ⟨k, x⟩ := a
        unfold assign_entries at hp
        split_ifs at hp with h1 h2
        · rcases List.mem_cons.mp hp with h | h
          · exact Or.inl h
          · exact Or.inr h
        · rcases List.mem_cons.mp hp with h | h
          · exact Or.inl h
          · exact Or.inr (List.mem_cons_of_mem _ h)
        · rcases List.mem_cons.mp hp with h | h
          · exact Or.inr (h ▸ List.mem_cons_self _ _)
          · rcases ih p h with h' | h'
            · exact Or.inl h'
            · exact Or.inr (List.mem_cons_of_mem _ h')
    have asc : ∀ l : List (String × Nat), KeysAscending l →
        KeysAscending (assign_entries l id v) := by
      intro l
      induction l with
      | nil => intro _; simp [assign_entries, KeysAscending]
      | cons a rest ih =>
        intro hl
        obtain ⟨k, x⟩ := a
        unfold KeysAscending at hl ih ⊢
        rw [List.pairwise_cons] at hl
        unfold assign_entries
        split_ifs with h1 h2
        · refine List.pairwise_cons.mpr ⟨?_, List.pairwise_cons.mpr hl⟩
          intro p hp
          rcases List.mem_cons.mp hp with h | h
          · subst h; exact h1
          · exact lt_trans h1 (hl.1 p h)
        · subst h2
          exact List.pairwise_cons.mpr ⟨hl.1, hl.2⟩
        · refine List.pairwise_cons.mpr ⟨?_, ih hl.2⟩
          intro p hp
          rcases mem rest p hp with h | h
          · subst h
            exact lt_of_le_of_ne (not_lt.mp h1) (fun h => h2 (String.ext h))
          · exact hl.1 p h
    exact asc _ m.ascending

/-- The erase loop of `do_close`. -/
def SessionMap.erase_id (m : SessionMap) (id : String) : SessionMap where
  entries := erase_entries m.entries id
  ascending := by
    have mem : ∀ (l : List (String × Nat)) (p : String × Nat),
        p ∈ erase_entries l id → p ∈ l := by
      intro l
      induction l with
      | nil => intro p hp; simp [erase_entries] at hp
      | cons a rest ih =>
        intro p hp
        obtain ⟨k, x⟩ := a
        unfold erase_entries at hp
        split_ifs at hp with h1
        · exact List.mem_cons_of_mem _ hp
        · rcases List.mem_cons.mp hp with h | h
          · exact h ▸ List.mem_cons_self _ _
          · exact List.mem_cons_of_mem _ (ih p h)
    have asc : ∀ l : List (String × Nat), KeysAscending l →
        KeysAscending (erase_entries l id) := by
      intro l
      induction l with
      | nil => intro _; simp [erase_entries, KeysAscending]
      | cons a rest ih =>
        intro hl
        obtain ⟨k, x⟩ := a
        unfold KeysAscending at hl ih ⊢
        rw [List.pairwise_cons] at hl
        unfold erase_entries
        split_ifs with h1
        · exact hl.2
        · exact List.pairwise_cons.mpr
            ⟨fun p hp => hl.1 p (mem rest p hp), ih hl.2⟩
    exact asc _ m.ascending

/-! ## Program state -/

/-- The control block of a `std::shared_ptr<const std::string>`: the string and
the number of `shared_ptr` objects that own it. -/
structure SharedString where
  content : Bytes
  use_count : Nat
  deriving DecidableEq

/-- The state the session code reads and writes: the session objects (indexed
by the handle a `shared_ptr` stands for), the static directory, the strings
created by `std::make_shared` (indexed by address, `none` for an address that
holds no live string), and the trace of what has left the core so far. -/
structure World where
  sessions : Nat → WebsocketSession
  m_sessions_id_ : SessionMap
  strings : Nat → Option SharedString
  next_string : Nat
  trace : List Effect

/-- The expression `std::make_shared<const std::string>(msg)`: a copy of `msg` at
a fresh address, owned by the one `shared_ptr` returned. -/
def World.make_shared (w : World) (msg : Bytes) : World × Nat :=
  ({ w with strings := Function.update w.strings w.next_string (some ⟨msg, 1⟩)
            next_string := w.next_string + 1 },
   w.next_string)

/-- Copying a `shared_ptr` (passing it by value): one more owner. -/
def World.copy_ptr (w : World) (p : Nat) : World :=
  let cell := (w.strings p).map (fun s => { s with use_count := s.use_count + 1 })
  { w with strings := Function.update w.strings p cell }

/-- Destroying a `shared_ptr` (its scope ends): one owner fewer, and the string
is destroyed with its last owner. -/
def World.drop_ptr (w : World) (p : Nat) : World :=
  let cell : Option SharedString :=
    match w.strings p with
    | none => none
    | some s => if s.use_count ≤ 1 then none else some { s with use_count := s.use_count - 1 }
  { w with strings := Function.update w.strings p cell }

/-- The bytes a pending write would read at address `data`: `none` when no live
string is there any more. -/
def World.bytes_at (w : World) (data : Nat) : Option Bytes :=
  (w.strings data).map (fun s => s.content)

/-- Replace the fields of the session object `self`. -/
def World.modify (w : World) (self : Nat)
    (f : WebsocketSession → WebsocketSession) : World :=
  { w with sessions := Function.update w.sessions self (f (w.sessions self)) }

/-- Append one effect to the trace. -/
def World.emit (w : World) (e : Effect) : World :=
  { w with trace := w.trace ++ [e] }

/-- The router events of a trace, in order. -/
def dispatched : List Effect → List Event
  | [] => []
  | .dispatch e :: rest => e :: dispatched rest
  | _ :: rest => dispatched rest

/-- The session an event is about. -/
def Event.session_of : Event → Nat
  | .opened s _ => s
  | .message s _ _ _ => s
  | .error s _ _ => s
  | .close s _ _ => s

/-- The event is a `dispatch_open`. -/
def Event.is_open : Event → Bool
  | .opened _ _ => true
  | _ => false

/-- The event is a `dispatch_message`. -/
def Event.is_message : Event → Bool
  | .message _ _ _ _ => true
  | _ => false

/-- The event is a `dispatch_close`. -/
def Event.is_close : Event → Bool
  | .close _ _ _ => true
  | _ => false

/-- The event is a `dispatch_error`. -/
def Event.is_error : Event → Bool
  | .error _ _ _ => true
  | _ => false

/-- The event is terminal: a close or an error. -/
def Event.is_terminal (e : Event) : Bool := e.is_close || e.is_error

/-- The router events of one session, in order. -/
def events_of (w : World) (self : Nat) : List Event :=
  (dispatched w.trace).filter (fun e => e.session_of = self)

/-! ## The member functions of `WebsocketSession` -/

/-- The constructor: `id` is the generated UUID string (a parameter here),
`initial_path_` the upgrade path; the stream starts with nothing in flight,
an empty buffer and Beast's default text options. -/
def WebsocketSession.construct (id initial_path : String) : WebsocketSession where
  id := id
  initial_path_ := initial_path
  buffer_ := []
  got_text := true
  text := true
  handshake_pending := false
  reads_in_flight := 0
  writes_in_flight := 0

/-- The function `do_read`: `ws_.async_read(buffer_, on_read)`. -/
def do_read (w : World) (self : Nat) : World :=
  (w.emit (.async_read self (w.sessions self).buffer_)).modify self
    (fun s => { s with reads_in_flight := s.reads_in_flight + 1 })

/-- The function `do_close`.  First branch: `dispatch_error` and nothing else.
Second branch: the loop over `m_sessions_id_` erases the entry keyed by `id`
(the statement `erase(item)` runs, and is put in the trace, only when such an
entry is found), then `dispatch_close`. -/
def do_close (w : World) (self : Nat) (ec : ErrorCode) : World :=
  let s := w.sessions self
  if is_transport_error ec then
    w.emit (.dispatch (.error self s.initial_path_ ec))
  else
    let w1 : World := { w with m_sessions_id_ := w.m_sessions_id_.erase_id s.id }
    let w2 : World :=
      if (w.m_sessions_id_.find s.id).isSome then w1.emit (.registry_erase s.id) else w1
    w2.emit (.dispatch (.close self s.initial_path_ ec))

/-- The function `on_handshake`: `do_close(ec)` on failure; otherwise
`m_sessions_id_[id] = shared_from_this()`, `dispatch_open`, `do_read()`. -/
def on_handshake (w : World) (self : Nat) (ec : ErrorCode) : World :=
  if ec.failed then
    do_close w self ec
  else
    let s := w.sessions self
    let w1 : World := { w with m_sessions_id_ := w.m_sessions_id_.assign s.id self }
    let w2 := w1.emit (.registry_assign s.id self)
    let w3 := w2.emit (.dispatch (.opened self s.initial_path_))
    do_read w3 self

/-- The function `on_read`: `do_close(ec)` when `ec == ws::error::closed` or when
`ec` is set; otherwise the bytes of `buffer_` become the message, the buffer
is consumed in full, `dispatch_message` is called and `do_read()` re-arms the
loop. -/
def on_read (w : World) (self : Nat) (ec : ErrorCode) (_bytes_transferred : Nat) : World :=
  if ec = ws_error_closed then
    do_close w self ec
  else if ec.failed then
    do_close w self ec
  else
    let s := w.sessions self
    let received_message : Bytes := s.buffer_
    let is_text := s.got_text
    let w1 := w.modify self (fun s => { s with buffer_ := s.buffer_.drop s.buffer_.length })
    let w2 := w1.emit (.dispatch (.message self s.initial_path_ received_message is_text))
    do_read w2 self

/-- The function `do_write(ss, is_text_msg)`: `ws_.text(is_text_msg)`, then
`ws_.async_write(net::buffer(*ss), on_write)`.  The buffer handed to the stream
is a view of `*ss`; the handler is bound to `shared_from_this()` only, so no
owner of the string is kept with the operation, and the by-value parameter
`ss` is destroyed when the function returns. -/
def do_write (w : World) (self : Nat) (ss : Nat) (is_text_msg : Bool) : World :=
  let w1 := w.modify self (fun s => { s with text := is_text_msg })
  let size := ((w1.bytes_at ss).map List.length).getD 0
  let w2 := w1.emit (.async_write self ss size (w1.sessions self).text)
  let w3 := w2.modify self (fun s => { s with writes_in_flight := s.writes_in_flight + 1 })
  w3.drop_ptr ss

/-- The member overload `send_message(msg, is_text_msg)`:
`auto ss = std::make_shared<const std::string>(msg); do_write(ss, is_text_msg);`
The local `ss` is copied into the parameter of `do_write` and is destroyed at
the end of the function. -/
def send_message (w : World) (self : Nat) (msg : Bytes) (is_text_msg : Bool) : World :=
  let r := w.make_shared msg
  let ss := r.2
  let w1 := do_write (r.1.copy_ptr ss) self ss is_text_msg
  w1.drop_ptr ss

/-- The body of the `for` loop of the static batch overload, with the running
`count`.  The count is a `size_t`; it is at most `ids.size()` and cannot wrap. -/
def send_message_loop (msg : Bytes) (is_text : Bool) :
    World → Nat → List String → World × Nat
  | w, count, [] => (w, count)
  | w, count, id :: rest =>
    match w.m_sessions_id_.find id with
    | none => send_message_loop msg is_text w count rest
    | some item => send_message_loop msg is_text (send_message w item msg is_text) (count + 1) rest

/-- The static overload `send_message(ids, msg, is_text)`: the new state and the
returned count. -/
def send_message_ids (w : World) (ids : List String) (msg : Bytes) (is_text : Bool) :
    World × Nat :=
  send_message_loop msg is_text w 0 ids

/-- The static overload `send_message(id, msg, is_text)`:
`send_message(std::vector{id}, msg, is_text) > 0`. -/
def send_message_id (w : World) (id : String) (msg : Bytes) (is_text : Bool) :
    World × Bool :=
  let r := send_message_ids w [id] msg is_text
  (r.1, decide (r.2 > 0))

/-- The function `on_write`: `do_close(ec)` when `ec` is set, nothing otherwise. -/
def on_write (w : World) (self : Nat) (ec : ErrorCode) (_bytes_transferred : Nat) : World :=
  if ec.failed then
    do_close w self ec
  else
    w

/-! ## The transport: which handler runs when -/

/-- Modelled from the spec: `WebsocketSession::run`, which hands the handshake to
the stream with `on_handshake` as its handler, is not in the source file.  Per
the spec a session is created before the handshake, and one handshake is
issued for it. -/
def WebsocketSession.run (s : WebsocketSession) : WebsocketSession :=
  { s with handshake_pending := true }

/-- Modelled from the spec: the stream `ws_` is a Boost.Beast object outside the
source file.  One thing that can happen to the program: the stream completes an
operation that is in flight and calls the handler bound to it, or a caller
invokes the static batch `send_message`. -/
inductive Step where
  | handshake_done (self : Nat) (ec : ErrorCode)
  | read_done (self : Nat) (ec : ErrorCode) (data : Bytes) (is_text : Bool)
  | write_done (self : Nat) (ec : ErrorCode) (bytes_transferred : Nat)
  | send (ids : List String) (msg : Bytes) (is_text : Bool)
  deriving DecidableEq

/-- A completion can only be delivered for an operation that was issued and has
not completed yet; `send_message` can be called at any time. -/
def Step.enabled (w : World) : Step → Bool
  | .handshake_done self _ => (w.sessions self).handshake_pending
  | .read_done self _ _ _ => decide (0 < (w.sessions self).reads_in_flight)
  | .write_done self _ _ => decide (0 < (w.sessions self).writes_in_flight)
  | .send _ _ _ => true

/-- The state after a step.  A completed read has put `data` behind the bytes of
`buffer_` and set what `got_text()` reports before `on_read` runs. -/
def Step.apply (w : World) : Step → World
  | .handshake_done self ec =>
    on_handshake (w.modify self (fun s => { s with handshake_pending := false })) self ec
  | .read_done self ec data is_text =>
    on_read
      (w.modify self (fun s =>
        { s with reads_in_flight := s.reads_in_flight - 1,
                 buffer_ := s.buffer_ ++ data,
                 got_text := is_text }))
      self ec data.length
  | .write_done self ec n =>
    on_write (w.modify self (fun s => { s with writes_in_flight := s.writes_in_flight - 1 }))
      self ec n
  | .send ids msg is_text => (send_message_ids w ids msg is_text).1

/-- The state after a sequence of steps. -/
def run : World → List Step → World
  | w, [] => w
  | w, st :: rest => run (st.apply w) rest

/-- Every step of the sequence is enabled in the state it is taken in. -/
def admissible : World → List Step → Bool
  | _, [] => true
  | w, st :: rest => st.enabled w && admissible (st.apply w) rest

/-- The program before any completion: session `h` has been constructed with
id `ids h` and path `paths h` and its handshake has been issued; the directory
is empty and nothing has left the core. -/
def start (ids paths : Nat → String) : World :=
  { sessions := fun h => (WebsocketSession.construct (ids h) (paths h)).run
    m_sessions_id_ := SessionMap.empty
    strings := fun _ => none
    next_string := 0
    trace := [] }

/-! ## Observations on a state -/

/-- A `dispatch_open` has been made for session `h`. -/
def has_opened (w : World) (h : Nat) : Bool := (events_of w h).any Event.is_open

/-- A `dispatch_close` has been made for session `h`. -/
def has_closed (w : World) (h : Nat) : Bool := (events_of w h).any Event.is_close

/-- A terminal event (close or error) has been dispatched for session `h`. -/
def has_terminal (w : World) (h : Nat) : Bool := (events_of w h).any Event.is_terminal

/-- What holds of every state the program reaches from `start ids paths`: ids
never change; a directory entry is filed under the session's own id, and its
session has completed the handshake, has dispatched its open event and has
dispatched no close event; a session whose handshake is still pending has
dispatched nothing and has nothing else in flight. -/
structure Reached (ids : Nat → String) (w : World) : Prop where
  id_eq : ∀ h, (w.sessions h).id = ids h
  registered : ∀ k h, w.m_sessions_id_.find k = some h →
    k = ids h ∧ (w.sessions h).handshake_pending = false ∧
      has_opened w h = true ∧ has_closed w h = false
  connecting : ∀ h, (w.sessions h).handshake_pending = true →
    events_of w h = [] ∧ (w.sessions h).reads_in_flight = 0 ∧
      (w.sessions h).writes_in_flight = 0

/-- What one completion delivered to session `s` does to the directory and to
the router, `w` being the state before and `w'` the state after: it registers
the session and dispatches its open event, or dispatches a message, or
dispatches an error, or erases the session's id and dispatches a close, or
does neither. -/
inductive Outcome (w : World) (s : Nat) (w' : World) : Prop where
  | opened
      (hreg : w'.m_sessions_id_ = w.m_sessions_id_.assign (w.sessions s).id s)
      (hev : dispatched w'.trace =
        dispatched w.trace ++ [Event.opened s (w.sessions s).initial_path_]) :
      Outcome w s w'
  | message (payload : Bytes) (is_text : Bool)
      (hreg : w'.m_sessions_id_ = w.m_sessions_id_)
      (hev : dispatched w'.trace =
        dispatched w.trace ++
          [Event.message s (w.sessions s).initial_path_ payload is_text]) :
      Outcome w s w'
  | error (ec : ErrorCode)
      (hreg : w'.m_sessions_id_ = w.m_sessions_id_)
      (hev : dispatched w'.trace =
        dispatched w.trace ++ [Event.error s (w.sessions s).initial_path_ ec]) :
      Outcome w s w'
  | close (ec : ErrorCode)
      (hreg : w'.m_sessions_id_ = w.m_sessions_id_.erase_id (w.sessions s).id)
      (hev : dispatched w'.trace =
        dispatched w.trace ++ [Event.close s (w.sessions s).initial_path_ ec]) :
      Outcome w s w'
  | silent
      (hreg : w'.m_sessions_id_ = w.m_sessions_id_)
      (hev : dispatched w'.trace = dispatched w.trace) :
      Outcome w s w'

/-- The calling discipline for writes: a `send_message` call addresses no session
that still has a write in flight.  Completions are not constrained. -/
def Step.writes_idle (w : World) : Step → Bool
  | .send ids _ _ =>
    ids.all (fun id =>
      match w.m_sessions_id_.find id with
      | none => true
      | some h => (w.sessions h).writes_in_flight == 0)
  | _ => true

/-- A `send_message` call names no registered id twice.  Completions are not
constrained. -/
def Step.ids_distinct (w : World) : Step → Bool
  | .send ids _ _ =>
    decide (ids.filter (fun id => (w.m_sessions_id_.find id).isSome)).Nodup
  | _ => true

/-- The step is a write completion on session `h` that carries a failing code. -/
def Step.is_failed_write_of (h : Nat) : Step → Bool
  | .write_done s ec _ => decide (s = h) && ec.failed
  | _ => false

/-- Every step of the sequence is enabled, and satisfies `ok`, in the state it
is taken in. -/
def admissible_when (ok : World → Step → Bool) : World → List Step → Bool
  | _, [] => true
  | w, st :: rest => st.enabled w && ok w st && admissible_when ok (st.apply w) rest

/-- Zero or more message events, then at most one terminal event, then nothing. -/
def messages_then_terminal : List Event → Bool
  | [] => true
  | e :: rest =>
    if e.is_message then messages_then_terminal rest else e.is_terminal && rest.isEmpty

/-- An initial part of `open, message*, (close | error)`: every event sequence
that can still be completed to that form, or has that form. -/
def open_messages_terminal : List Event → Bool
  | [] => true
  | e :: rest => e.is_open && messages_then_terminal rest

/-- Either nothing, or a lone terminal event without any open, or an initial
part of `open, message*, (close | error)`. -/
def lifecycle : List Event → Bool
  | [] => true
  | e :: rest =>
    if e.is_open then messages_then_terminal rest else e.is_terminal && rest.isEmpty

/-- The writes a batch call issues on the sessions `hs`, in order, when the
first string it creates is at address `a`: each write views a string of its own. -/
def issued_writes (size : Nat) (is_text : Bool) : Nat → List Nat → List Effect
  | _, [] => []
  | a, h :: rest => Effect.async_write h a size is_text :: issued_writes size is_text (a + 1) rest

/-- The terminal event of a failing completion with code `ec`: an error event for
a transport error, a close event for `ws::error::closed` and end of stream. -/
def terminal_event (h : Nat) (path : String) (ec : ErrorCode) : Event :=
  if is_transport_error ec then Event.error h path ec else Event.close h path ec

/-- The events session `h` is to dispatch for one step, read off the step alone:
its handshake completion gives the open event on success and a terminal event
on failure; its read completion gives a message event with the bytes received
on success and a terminal event on failure; nothing else gives an event. -/
def Step.events_for (h : Nat) (path : String) : Step → List Event
  | .handshake_done s ec =>
    if s = h then
      (if ec.failed then [terminal_event h path ec] else [Event.opened h path])
    else []
  | .read_done s ec data is_text =>
    if s = h then
      (if ec.failed then [terminal_event h path ec]
       else [Event.message h path data is_text])
    else []
  | _ => []

/-- Where session `h` stands after the steps `past`, none of which is a failing
write completion of `h`.  Its events are those of `past`; and its handshake is
pending and nothing was dispatched; or its handshake failed with `ec` and the
terminal event of `ec` is all it dispatched; or it is open with one read in
flight on an empty buffer and has dispatched its open event and messages; or
its read loop was stopped by a read failing with `ec`, whose terminal event
closes the sequence. -/
def SessionPhase (paths : Nat → String) (past : List Step) (w : World) (h : Nat) : Prop :=
  (w.sessions h).initial_path_ = paths h ∧
  events_of w h = past.flatMap (Step.events_for h (paths h)) ∧
  (((w.sessions h).handshake_pending = true ∧ (w.sessions h).reads_in_flight = 0 ∧
      (w.sessions h).buffer_ = [] ∧ events_of w h = [] ∧
      (∀ ec, Step.handshake_done h ec ∉ past) ∧
      (∀ ec d t, Step.read_done h ec d t ∉ past)) ∨
   ((w.sessions h).handshake_pending = false ∧ (w.sessions h).reads_in_flight = 0 ∧
      ∃ ec, ec.failed = true ∧ events_of w h = [terminal_event h (paths h) ec] ∧
        (∀ ec0, Step.handshake_done h ec0 ∈ past → ec0 = ec) ∧
        (∀ ec1 d t, Step.read_done h ec1 d t ∉ past)) ∨
   ((w.sessions h).handshake_pending = false ∧ (w.sessions h).reads_in_flight = 1 ∧
      (w.sessions h).buffer_ = [] ∧
      ∃ msgs, events_of w h = Event.opened h (paths h) :: msgs ∧
        (∀ m ∈ msgs, m.is_message = true) ∧
        (∀ ec0, Step.handshake_done h ec0 ∈ past → ec0.failed = false) ∧
        (∀ ec1 d t, Step.read_done h ec1 d t ∈ past → ec1.failed = false)) ∨
   ((w.sessions h).handshake_pending = false ∧ (w.sessions h).reads_in_flight = 0 ∧
      ∃ msgs ec, ec.failed = true ∧
        events_of w h = Event.opened h (paths h) :: (msgs ++ [terminal_event h (paths h) ec]) ∧
        (∀ m ∈ msgs, m.is_message = true) ∧
        (∀ ec0, Step.handshake_done h ec0 ∈ past → ec0.failed = false) ∧
        (∀ ec1 d t, Step.read_done h ec1 d t ∈ past → ec1.failed = true → ec1 = ec)))

/-- What the steps `past` say about the handshake of session `h`: while the
handshake is pending no handshake completion of `h` is among them; an open
event has been dispatched for `h` only if its handshake completed with a
non-failing code; and a handshake completion of `h` with a failing code rules
out every open event of `h`. -/
def HandshakeRecord (past : List Step) (w : World) (h : Nat) : Prop :=
  ((w.sessions h).handshake_pending = true → ∀ ec, Step.handshake_done h ec ∉ past) ∧
  (has_opened w h = true → ∃ ec, Step.handshake_done h ec ∈ past ∧ ec.failed = false) ∧
  (∀ ec, Step.handshake_done h ec ∈ past → ec.failed = true → has_opened w h = false)

/-! ## Concrete programs used to exercise the statements -/

/-- Ids of the example sessions: session `h` has the id made of `h + 1` letters `a`. -/
def example_ids (h : Nat) : String := String.mk (List.replicate (h + 1) 'a')

/-- All example sessions were upgraded on the path `/ws`. -/
def example_paths (_h : Nat) : String := "/ws"

/-- Sessions 0 and 2 have completed their handshake; session 1 has not. -/
def world_two_open : World :=
  run (start example_ids example_paths)
    [.handshake_done 0 ec_success, .handshake_done 2 ec_success]

/-- Session 0 has completed its handshake and its read has then failed with a
connection reset. -/
def world_after_reset : World :=
  run (start example_ids example_paths)
    [.handshake_done 0 ec_success, .read_done 0 connection_reset [] true]

/-- The handshake of session 0 fails with a connection reset. -/
def steps_handshake_reset : List Step := [.handshake_done 0 connection_reset]

/-- Session 0 opens, a message is sent to it, then the connection is reset: the
read in flight and the write in flight both complete with the error. -/
def steps_reset_during_write : List Step :=
  [.handshake_done 0 ec_success, .send ["a"] [104] true,
   .read_done 0 connection_reset [] true, .write_done 0 connection_reset 0]

/-- Session 0 opens and one batch call names its id twice. -/
def steps_send_twice : List Step :=
  [.handshake_done 0 ec_success, .send ["a", "a"] [104] true]

/-- Sessions 0 and 1 open, session 1 receives a message and is closed by its
peer, and a message is sent to both ids. -/
def steps_two_sessions : List Step :=
  [.handshake_done 0 ec_success, .handshake_done 1 ec_success,
   .read_done 1 ec_success [1, 2] false, .read_done 1 ws_error_closed [] true,
   .send ["a", "aa"] [104] true, .write_done 0 ec_success 1]

/-! ## Lemmas on the directory -/

theorem SessionMap.ext_entries {m n : SessionMap} (h : m.entries = n.entries) : m = n := by
  cases m; cases n; cases h; rfl

theorem find_entries_isSome_iff (l : List (String × Nat)) (id : String) :
    (find_entries l id).isSome = true ↔ id ∈ l.map Prod.fst := by
  induction l with
  | nil => simp [find_entries]
  | cons a rest ih =>
    obtain ⟨k, v⟩ := a
    unfold find_entries
    by_cases h : k = id
    · simp [h]
    · have h' : ¬ id = k := fun e => h e.symm
      simp [h, h', ih]

theorem find_entries_none_of_not_mem (l : List (String × Nat)) (id : String)
    (h : ∀ p ∈ l, p.1 ≠ id) : find_entries l id = none := by
  induction l with
  | nil => rfl
  | cons a rest ih =>
    obtain ⟨k, v⟩ := a
    unfold find_entries
    have hk : k ≠ id := h (k, v) (List.mem_cons_self _ _)
    rw [if_neg hk]
    exact ih (fun p hp => h p (List.mem_cons_of_mem _ hp))

theorem find_entries_mem (l : List (String × Nat)) (id : String) (v : Nat)
    (h : find_entries l id = some v) : (id, v) ∈ l := by
  induction l with
  | nil => simp [find_entries] at h
  | cons a rest ih =>
    obtain ⟨k, x⟩ := a
    unfold find_entries at h
    split_ifs at h with hk
    · cases h; subst hk; exact List.mem_cons_self _ _
    · exact List.mem_cons_of_mem _ (ih h)

theorem find_assign_same (l : List (String × Nat)) (id : String) (v : Nat) :
    find_entries (assign_entries l id v) id = some v := by
  induction l with
  | nil => simp [assign_entries, find_entries]
  | cons a rest ih =>
    obtain ⟨k, x⟩ := a
    unfold assign_entries
    split_ifs with h1 h2
    · simp [find_entries]
    · simp [find_entries]
    · simp [find_entries, h2, ih]

theorem find_assign_other (l : List (String × Nat)) (id k' : String) (v : Nat)
    (hne : k' ≠ id) : find_entries (assign_entries l id v) k' = find_entries l k' := by
  have hne' : ¬ id = k' := fun e => hne e.symm
  induction l with
  | nil => simp [assign_entries, find_entries, hne']
  | cons a rest ih =>
    obtain ⟨k, x⟩ := a
    unfold assign_entries
    split_ifs with h1 h2
    · simp [find_entries, hne']
    · subst h2; simp [find_entries, hne']
    · simp [find_entries, ih]

theorem find_erase_same (l : List (String × Nat)) (id : String) (hl : KeysAscending l) :
    find_entries (erase_entries l id) id = none := by
  induction l with
  | nil => rfl
  | cons a rest ih =>
    obtain ⟨k, x⟩ := a
    unfold KeysAscending at hl ih
    rw [List.pairwise_cons] at hl
    unfold erase_entries
    split_ifs with h1
    · subst h1
      apply find_entries_none_of_not_mem
      intro p hp e
      have := hl.1 p hp
      rw [e] at this
      exact lt_irrefl _ this
    · simp [find_entries, h1]
      exact ih hl.2

theorem find_erase_other (l : List (String × Nat)) (id k' : String) (hne : k' ≠ id) :
    find_entries (erase_entries l id) k' = find_entries l k' := by
  induction l with
  | nil => rfl
  | cons a rest ih =>
    obtain ⟨k, x⟩ := a
    unfold erase_entries
    split_ifs with h1
    · subst h1
      have : ¬ k = k' := fun e => hne e.symm
      simp [find_entries, this]
    · simp [find_entries, ih]

theorem erase_entries_absent (l : List (String × Nat)) (id : String)
    (h : find_entries l id = none) : erase_entries l id = l := by
  induction l with
  | nil => rfl
  | cons a rest ih =>
    obtain ⟨k, x⟩ := a
    unfold find_entries at h
    unfold erase_entries
    split_ifs at h with h1
    rw [if_neg h1, ih h]

/-! ## Lemmas on the state primitives -/

@[simp] theorem modify_registry (w : World) (self : Nat) (f : WebsocketSession → WebsocketSession) :
    (w.modify self f).m_sessions_id_ = w.m_sessions_id_ := rfl

@[simp] theorem modify_trace (w : World) (self : Nat) (f : WebsocketSession → WebsocketSession) :
    (w.modify self f).trace = w.trace := rfl

@[simp] theorem modify_sessions_same (w : World) (self : Nat)
    (f : WebsocketSession → WebsocketSession) :
    (w.modify self f).sessions self = f (w.sessions self) := by
  simp [World.modify]

theorem modify_sessions_other (w : World) (self h : Nat)
    (f : WebsocketSession → WebsocketSession) (hne : h ≠ self) :
    (w.modify self f).sessions h = w.sessions h := by
  simp [World.modify, Function.update_noteq hne]

@[simp] theorem emit_registry (w : World) (e : Effect) :
    (w.emit e).m_sessions_id_ = w.m_sessions_id_ := rfl

@[simp] theorem emit_trace (w : World) (e : Effect) :
    (w.emit e).trace = w.trace ++ [e] := rfl

@[simp] theorem emit_sessions (w : World) (e : Effect) :
    (w.emit e).sessions = w.sessions := rfl

theorem dispatched_append (a b : List Effect) :
    dispatched (a ++ b) = dispatched a ++ dispatched b := by
  induction a with
  | nil => rfl
  | cons x rest ih =>
    cases x <;> simp [dispatched, ih]

/-! ## The batch `send_message` -/

@[simp] theorem modify_strings (w : World) (self : Nat)
    (f : WebsocketSession → WebsocketSession) :
    (w.modify self f).strings = w.strings := rfl

@[simp] theorem modify_next_string (w : World) (self : Nat)
    (f : WebsocketSession → WebsocketSession) :
    (w.modify self f).next_string = w.next_string := rfl

@[simp] theorem emit_strings (w : World) (e : Effect) : (w.emit e).strings = w.strings := rfl

@[simp] theorem emit_next_string (w : World) (e : Effect) :
    (w.emit e).next_string = w.next_string := rfl

@[simp] theorem drop_ptr_sessions (w : World) (p : Nat) :
    (w.drop_ptr p).sessions = w.sessions := rfl

@[simp] theorem drop_ptr_registry (w : World) (p : Nat) :
    (w.drop_ptr p).m_sessions_id_ = w.m_sessions_id_ := rfl

@[simp] theorem drop_ptr_trace (w : World) (p : Nat) : (w.drop_ptr p).trace = w.trace := rfl

@[simp] theorem drop_ptr_next_string (w : World) (p : Nat) :
    (w.drop_ptr p).next_string = w.next_string := rfl

@[simp] theorem copy_ptr_sessions (w : World) (p : Nat) :
    (w.copy_ptr p).sessions = w.sessions := rfl

@[simp] theorem copy_ptr_registry (w : World) (p : Nat) :
    (w.copy_ptr p).m_sessions_id_ = w.m_sessions_id_ := rfl

@[simp] theorem copy_ptr_trace (w : World) (p : Nat) : (w.copy_ptr p).trace = w.trace := rfl

@[simp] theorem copy_ptr_next_string (w : World) (p : Nat) :
    (w.copy_ptr p).next_string = w.next_string := rfl

@[simp] theorem make_shared_sessions (w : World) (msg : Bytes) :
    (w.make_shared msg).1.sessions = w.sessions := rfl

@[simp] theorem make_shared_registry (w : World) (msg : Bytes) :
    (w.make_shared msg).1.m_sessions_id_ = w.m_sessions_id_ := rfl

@[simp] theorem make_shared_trace (w : World) (msg : Bytes) :
    (w.make_shared msg).1.trace = w.trace := rfl

@[simp] theorem make_shared_ptr (w : World) (msg : Bytes) :
    (w.make_shared msg).2 = w.next_string := rfl

/-- The string is alive, with both the local `ss` and the parameter of `do_write`
owning it, when `do_write` starts. -/
theorem strings_before_do_write (w : World) (msg : Bytes) :
    ((w.make_shared msg).1.copy_ptr w.next_string).strings w.next_string =
      some ⟨msg, 2⟩ := by
  simp [World.make_shared, World.copy_ptr]

theorem send_message_registry (w : World) (self : Nat) (msg : Bytes) (t : Bool) :
    (send_message w self msg t).m_sessions_id_ = w.m_sessions_id_ := rfl

theorem send_message_trace (w : World) (self : Nat) (msg : Bytes) (t : Bool) :
    (send_message w self msg t).trace =
      w.trace ++ [Effect.async_write self w.next_string msg.length t] := by
  simp [send_message, do_write, World.bytes_at, strings_before_do_write]

theorem send_message_sessions_other (w : World) (self h : Nat) (msg : Bytes) (t : Bool)
    (hne : h ≠ self) : (send_message w self msg t).sessions h = w.sessions h := by
  simp [send_message, do_write, modify_sessions_other _ _ _ _ hne]

theorem send_message_sessions_same (w : World) (self : Nat) (msg : Bytes) (t : Bool) :
    (send_message w self msg t).sessions self =
      { w.sessions self with text := t,
                             writes_in_flight := (w.sessions self).writes_in_flight + 1 } := by
  simp [send_message, do_write]

theorem send_message_next_string (w : World) (self : Nat) (msg : Bytes) (t : Bool) :
    (send_message w self msg t).next_string = w.next_string + 1 := rfl

/-- When `send_message` returns, the string it created has lost both its owners
and is destroyed; no other string is touched. -/
theorem send_message_strings (w : World) (self : Nat) (msg : Bytes) (t : Bool) :
    (send_message w self msg t).strings = Function.update w.strings w.next_string none := by
  funext a
  by_cases ha : a = w.next_string
  · subst ha
    simp [send_message, do_write, World.drop_ptr, World.copy_ptr, World.make_shared]
  · simp [send_message, do_write, World.drop_ptr, World.copy_ptr, World.make_shared,
      Function.update_noteq ha]

theorem send_message_loop_registry (msg : Bytes) (t : Bool) (ids : List String) :
    ∀ (w : World) (c : Nat),
      (send_message_loop msg t w c ids).1.m_sessions_id_ = w.m_sessions_id_ := by
  induction ids with
  | nil => intro w c; rfl
  | cons id rest ih =>
    intro w c
    unfold send_message_loop
    cases hf : w.m_sessions_id_.find id with
    | none => simp only []; exact ih w c
    | some item => simp only []; rw [ih]; rfl

theorem send_message_loop_count (msg : Bytes) (t : Bool) (ids : List String) :
    ∀ (w : World) (c : Nat),
      (send_message_loop msg t w c ids).2 =
        c + ids.countP (fun id => decide (id ∈ w.m_sessions_id_.keys)) := by
  induction ids with
  | nil => intro w c; rfl
  | cons id rest ih =>
    intro w c
    unfold send_message_loop
    cases hf : w.m_sessions_id_.find id with
    | none =>
      simp only []
      have hk : ¬ id ∈ w.m_sessions_id_.keys := by
        intro hm
        have := (find_entries_isSome_iff w.m_sessions_id_.entries id).mpr hm
        unfold SessionMap.find at hf
        rw [hf] at this
        simp at this
      rw [ih w c, List.countP_cons_of_neg]
      simpa using hk
    | some item =>
      simp only []
      have hk : id ∈ w.m_sessions_id_.keys := by
        apply (find_entries_isSome_iff w.m_sessions_id_.entries id).mp
        unfold SessionMap.find at hf
        rw [hf]; rfl
      rw [ih, send_message_registry, List.countP_cons_of_pos]
      · omega
      · simpa using hk

theorem send_message_loop_trace (msg : Bytes) (t : Bool) (ids : List String) :
    ∀ (w : World) (c : Nat),
      (send_message_loop msg t w c ids).1.trace =
        w.trace ++ issued_writes msg.length t w.next_string
          (ids.filterMap w.m_sessions_id_.find) := by
  induction ids with
  | nil => intro w c; simp [send_message_loop, issued_writes]
  | cons id rest ih =>
    intro w c
    unfold send_message_loop
    cases hf : w.m_sessions_id_.find id with
    | none =>
      simp only []
      rw [ih w c, List.filterMap_cons_none hf]
    | some item =>
      simp only []
      rw [ih, send_message_registry, send_message_trace, send_message_next_string,
        List.filterMap_cons_some hf]
      simp [issued_writes]

theorem send_message_loop_next_string (msg : Bytes) (t : Bool) (ids : List String) :
    ∀ (w : World) (c : Nat),
      (send_message_loop msg t w c ids).1.next_string =
        w.next_string + (ids.filterMap w.m_sessions_id_.find).length := by
  induction ids with
  | nil => intro w c; simp [send_message_loop]
  | cons id rest ih =>
    intro w c
    unfold send_message_loop
    cases hf : w.m_sessions_id_.find id with
    | none =>
      simp only []
      rw [ih w c, List.filterMap_cons_none hf]
    | some item =>
      simp only []
      rw [ih, send_message_registry, send_message_next_string, List.filterMap_cons_some hf]
      simp only [List.length_cons]
      omega

/-- When the batch call returns, every string it created is destroyed, and every
other address holds what it held before. -/
theorem send_message_loop_strings (msg : Bytes) (t : Bool) (ids : List String) :
    ∀ (w : World) (c : Nat) (a : Nat),
      (send_message_loop msg t w c ids).1.strings a =
        if w.next_string ≤ a ∧
            a < w.next_string + (ids.filterMap w.m_sessions_id_.find).length
          then none else w.strings a := by
  induction ids with
  | nil =>
    intro w c a
    have : ¬ (w.next_string ≤ a ∧ a < w.next_string + 0) := by omega
    simp only [send_message_loop, List.filterMap_nil, List.length_nil]
    rw [if_neg this]
  | cons id rest ih =>
    intro w c a
    unfold send_message_loop
    cases hf : w.m_sessions_id_.find id with
    | none =>
      simp only []
      rw [ih w c a, List.filterMap_cons_none hf]
    | some item =>
      simp only []
      rw [ih, send_message_registry, send_message_next_string, send_message_strings,
        List.filterMap_cons_some hf]
      simp only [List.length_cons]
      by_cases ha : a = w.next_string
      · subst ha
        simp
      · rw [Function.update_noteq ha]
        by_cases h1 : w.next_string + 1 ≤ a ∧
            a < w.next_string + 1 + (rest.filterMap w.m_sessions_id_.find).length
        · have h2 : w.next_string ≤ a ∧
              a < w.next_string + ((rest.filterMap w.m_sessions_id_.find).length + 1) :=
            ⟨by omega, by omega⟩
          rw [if_pos h1, if_pos h2]
        · have h2 : ¬ (w.next_string ≤ a ∧
              a < w.next_string + ((rest.filterMap w.m_sessions_id_.find).length + 1)) := by
            intro h3
            apply h1
            refine ⟨?_, by omega⟩
            have := h3.1
            omega
          rw [if_neg h1, if_neg h2]

theorem mem_issued_writes (size : Nat) (t : Bool) (e : Effect) :
    ∀ (hs : List Nat) (a : Nat), e ∈ issued_writes size t a hs →
      ∃ h ∈ hs, ∃ b, a ≤ b ∧ b < a + hs.length ∧ e = Effect.async_write h b size t := by
  intro hs
  induction hs with
  | nil => intro a hm; simp [issued_writes] at hm
  | cons h rest ih =>
    intro a hm
    unfold issued_writes at hm
    rcases List.mem_cons.mp hm with h1 | h1
    · exact ⟨h, List.mem_cons_self _ _, a, le_refl a, by simp, h1⟩
    · obtain ⟨h', hm', b, hb1, hb2, he⟩ := ih (a + 1) h1
      refine ⟨h', List.mem_cons_of_mem _ hm', b, by omega, ?_, he⟩
      simp only [List.length_cons]
      omega

theorem dispatched_issued_writes (size : Nat) (t : Bool) :
    ∀ (hs : List Nat) (a : Nat), dispatched (issued_writes size t a hs) = [] := by
  intro hs
  induction hs with
  | nil => intro a; rfl
  | cons h rest ih => intro a; simp [issued_writes, dispatched, ih]

theorem send_message_loop_sessions_other (msg : Bytes) (t : Bool) (ids : List String) :
    ∀ (w : World) (c : Nat) (h : Nat), h ∉ ids.filterMap w.m_sessions_id_.find →
      (send_message_loop msg t w c ids).1.sessions h = w.sessions h := by
  induction ids with
  | nil => intro w c h _; rfl
  | cons id rest ih =>
    intro w c h hh
    unfold send_message_loop
    cases hf : w.m_sessions_id_.find id with
    | none =>
      simp only []
      apply ih
      simpa [List.filterMap_cons, hf] using hh
    | some item =>
      simp only []
      rw [List.filterMap_cons_some hf] at hh
      have h1 : h ≠ item := fun e => hh (e ▸ List.mem_cons_self _ _)
      have h2 : h ∉ rest.filterMap w.m_sessions_id_.find :=
        fun hm => hh (List.mem_cons_of_mem _ hm)
      rw [ih]
      · exact send_message_sessions_other w item h msg t h1
      · rw [send_message_registry]; exact h2

/-! ## `do_close` -/

theorem is_transport_error_iff (ec : ErrorCode) :
    is_transport_error ec = true ↔
      ec.value ≠ 0 ∧ ec ≠ ws_error_closed ∧ ec ≠ asio_error_eof := by
  simp [is_transport_error, ErrorCode.failed, and_assoc]

theorem do_close_error (w : World) (self : Nat) (ec : ErrorCode)
    (h : is_transport_error ec = true) :
    do_close w self ec =
      w.emit (.dispatch (.error self (w.sessions self).initial_path_ ec)) := by
  simp [do_close, h]

theorem do_close_sessions (w : World) (self : Nat) (ec : ErrorCode) :
    (do_close w self ec).sessions = w.sessions := by
  unfold do_close
  simp only []
  split_ifs <;> rfl

theorem do_close_normal_registry (w : World) (self : Nat) (ec : ErrorCode)
    (h : is_transport_error ec = false) :
    (do_close w self ec).m_sessions_id_ =
      w.m_sessions_id_.erase_id (w.sessions self).id := by
  unfold do_close
  simp only [h, Bool.false_eq_true, if_false]
  split_ifs <;> rfl

theorem do_close_normal_trace (w : World) (self : Nat) (ec : ErrorCode)
    (h : is_transport_error ec = false) :
    (do_close w self ec).trace =
      w.trace
        ++ (if (w.m_sessions_id_.find (w.sessions self).id).isSome
              then [Effect.registry_erase (w.sessions self).id] else [])
        ++ [Effect.dispatch (.close self (w.sessions self).initial_path_ ec)] := by
  unfold do_close
  simp only [h, Bool.false_eq_true, if_false]
  split_ifs <;> simp [World.emit]

theorem do_close_dispatched (w : World) (self : Nat) (ec : ErrorCode) :
    dispatched (do_close w self ec).trace =
      dispatched w.trace ++
        [if is_transport_error ec = true
          then Event.error self (w.sessions self).initial_path_ ec
          else Event.close self (w.sessions self).initial_path_ ec] := by
  cases h : is_transport_error ec with
  | true =>
    rw [do_close_error w self ec h]
    simp [dispatched_append, dispatched]
  | false =>
    rw [do_close_normal_trace w self ec h]
    by_cases hf : (w.m_sessions_id_.find (w.sessions self).id).isSome = true
    · simp [hf, dispatched_append, dispatched]
    · simp [hf, dispatched_append, dispatched]

theorem erase_entries_eq_filter (l : List (String × Nat)) (id : String) (hl : KeysAscending l) :
    erase_entries l id = l.filter (fun p => decide (p.1 ≠ id)) := by
  induction l with
  | nil => rfl
  | cons a rest ih =>
    obtain ⟨k, x⟩ := a
    unfold KeysAscending at hl ih
    rw [List.pairwise_cons] at hl
    unfold erase_entries
    split_ifs with h1
    · subst h1
      rw [List.filter_cons_of_neg (by simp)]
      symm
      apply List.filter_eq_self.mpr
      intro p hp
      have hlt := hl.1 p hp
      have : p.1 ≠ k := by
        intro e
        rw [e] at hlt
        exact lt_irrefl _ hlt
      simpa using this
    · rw [List.filter_cons_of_pos (by simpa using h1), ih hl.2]

/-! ## What a step does -/

theorem events_of_same (w w' : World) (h : Nat)
    (hev : dispatched w'.trace = dispatched w.trace) : events_of w' h = events_of w h := by
  unfold events_of; rw [hev]

theorem events_of_snoc (w w' : World) (h : Nat) (e : Event)
    (hev : dispatched w'.trace = dispatched w.trace ++ [e]) :
    events_of w' h = events_of w h ++ (if e.session_of = h then [e] else []) := by
  unfold events_of
  rw [hev, List.filter_append]
  by_cases he : e.session_of = h
  · simp [he]
  · simp [he]

theorem apply_handshake_done (w : World) (s : Nat) (ec : ErrorCode) :
    (Step.handshake_done s ec).apply w =
      on_handshake (w.modify s (fun x => { x with handshake_pending := false })) s ec := rfl

theorem apply_read_done (w : World) (s : Nat) (ec : ErrorCode) (data : Bytes) (t : Bool) :
    (Step.read_done s ec data t).apply w =
      on_read
        (w.modify s (fun x =>
          { x with reads_in_flight := x.reads_in_flight - 1,
                   buffer_ := x.buffer_ ++ data,
                   got_text := t }))
        s ec data.length := rfl

theorem apply_write_done (w : World) (s : Nat) (ec : ErrorCode) (n : Nat) :
    (Step.write_done s ec n).apply w =
      on_write (w.modify s (fun x => { x with writes_in_flight := x.writes_in_flight - 1 }))
        s ec n := rfl

theorem apply_send (w : World) (ids : List String) (msg : Bytes) (t : Bool) :
    (Step.send ids msg t).apply w = (send_message_ids w ids msg t).1 := rfl

theorem on_read_failed (w : World) (self : Nat) (ec : ErrorCode) (n : Nat)
    (hf : ec.failed = true) : on_read w self ec n = do_close w self ec := by
  unfold on_read
  split_ifs <;> rfl

theorem do_close_outcome (w0 w : World) (s : Nat) (ec : ErrorCode)
    (hs : (w0.sessions s).id = (w.sessions s).id)
    (hp : (w0.sessions s).initial_path_ = (w.sessions s).initial_path_)
    (hreg : w0.m_sessions_id_ = w.m_sessions_id_) (htr : w0.trace = w.trace) :
    Outcome w s (do_close w0 s ec) := by
  cases hte : is_transport_error ec with
  | true =>
    refine Outcome.error ec ?_ ?_
    · rw [do_close_error w0 s ec hte]; exact hreg
    · rw [do_close_dispatched, htr, hp]; simp [hte]
  | false =>
    refine Outcome.close ec ?_ ?_
    · rw [do_close_normal_registry w0 s ec hte, hreg, hs]
    · rw [do_close_dispatched, htr, hp]; simp [hte]

theorem handshake_outcome (w : World) (s : Nat) (ec : ErrorCode) :
    Outcome w s ((Step.handshake_done s ec).apply w) := by
  rw [apply_handshake_done]
  unfold on_handshake
  split_ifs with hf
  · exact do_close_outcome _ w s ec (by simp) (by simp) rfl rfl
  · refine Outcome.opened ?_ ?_
    · simp [do_read]
    · simp [do_read, dispatched_append, dispatched]

theorem read_outcome (w : World) (s : Nat) (ec : ErrorCode) (data : Bytes) (t : Bool) :
    Outcome w s ((Step.read_done s ec data t).apply w) := by
  rw [apply_read_done]
  cases hf : ec.failed with
  | true =>
    rw [on_read_failed _ _ _ _ hf]
    exact do_close_outcome _ w s ec (by simp) (by simp) rfl rfl
  | false =>
    have hne : ec ≠ ws_error_closed := by
      intro e; rw [e] at hf; exact absurd hf (by decide)
    refine Outcome.message ((w.sessions s).buffer_ ++ data) t ?_ ?_
    · simp [on_read, hne, hf, do_read]
    · simp [on_read, hne, hf, do_read, dispatched_append, dispatched]

theorem write_outcome (w : World) (s : Nat) (ec : ErrorCode) (n : Nat) :
    Outcome w s ((Step.write_done s ec n).apply w) := by
  rw [apply_write_done]
  unfold on_write
  split_ifs with hf
  · exact do_close_outcome _ w s ec (by simp) (by simp) rfl rfl
  · exact Outcome.silent rfl rfl

theorem handshake_sessions_same (w : World) (s : Nat) (ec : ErrorCode) :
    ((Step.handshake_done s ec).apply w).sessions s =
      { w.sessions s with
        handshake_pending := false
        reads_in_flight :=
          (w.sessions s).reads_in_flight + (if ec.failed = true then 0 else 1) } := by
  rw [apply_handshake_done]
  unfold on_handshake
  split_ifs with hf
  · rw [do_close_sessions]; simp
  · simp [do_read]

theorem handshake_sessions_other (w : World) (s h : Nat) (ec : ErrorCode) (hne : h ≠ s) :
    ((Step.handshake_done s ec).apply w).sessions h = w.sessions h := by
  rw [apply_handshake_done]
  unfold on_handshake
  split_ifs with hf
  · rw [do_close_sessions]; exact modify_sessions_other _ _ _ _ hne
  · simp [do_read, modify_sessions_other _ _ _ _ hne]

theorem read_sessions_same (w : World) (s : Nat) (ec : ErrorCode) (data : Bytes) (t : Bool) :
    ((Step.read_done s ec data t).apply w).sessions s =
      { w.sessions s with
        reads_in_flight :=
          (w.sessions s).reads_in_flight - 1 + (if ec.failed = true then 0 else 1)
        buffer_ := if ec.failed = true then (w.sessions s).buffer_ ++ data else []
        got_text := t } := by
  rw [apply_read_done]
  cases hf : ec.failed with
  | true =>
    rw [on_read_failed _ _ _ _ hf, do_close_sessions]; simp
  | false =>
    have hne : ec ≠ ws_error_closed := by
      intro e; rw [e] at hf; exact absurd hf (by decide)
    simp [on_read, hne, hf, do_read]

theorem read_sessions_other (w : World) (s h : Nat) (ec : ErrorCode) (data : Bytes) (t : Bool)
    (hne : h ≠ s) : ((Step.read_done s ec data t).apply w).sessions h = w.sessions h := by
  rw [apply_read_done]
  cases hf : ec.failed with
  | true =>
    rw [on_read_failed _ _ _ _ hf, do_close_sessions]
    exact modify_sessions_other _ _ _ _ hne
  | false =>
    have hne' : ec ≠ ws_error_closed := by
      intro e; rw [e] at hf; exact absurd hf (by decide)
    simp [on_read, hne', hf, do_read, modify_sessions_other _ _ _ _ hne]

theorem write_sessions_same (w : World) (s : Nat) (ec : ErrorCode) (n : Nat) :
    ((Step.write_done s ec n).apply w).sessions s =
      { w.sessions s with writes_in_flight := (w.sessions s).writes_in_flight - 1 } := by
  rw [apply_write_done]
  unfold on_write
  split_ifs with hf
  · rw [do_close_sessions]; simp
  · simp

theorem write_sessions_other (w : World) (s h : Nat) (ec : ErrorCode) (n : Nat)
    (hne : h ≠ s) : ((Step.write_done s ec n).apply w).sessions h = w.sessions h := by
  rw [apply_write_done]
  unfold on_write
  split_ifs with hf
  · rw [do_close_sessions]; exact modify_sessions_other _ _ _ _ hne
  · exact modify_sessions_other _ _ _ _ hne

theorem send_message_fields (w : World) (self h : Nat) (msg : Bytes) (t : Bool) :
    ((send_message w self msg t).sessions h).id = (w.sessions h).id ∧
      ((send_message w self msg t).sessions h).initial_path_ = (w.sessions h).initial_path_ ∧
      ((send_message w self msg t).sessions h).handshake_pending =
        (w.sessions h).handshake_pending ∧
      ((send_message w self msg t).sessions h).reads_in_flight =
        (w.sessions h).reads_in_flight ∧
      ((send_message w self msg t).sessions h).writes_in_flight =
        (w.sessions h).writes_in_flight + (if self = h then 1 else 0) := by
  by_cases hh : h = self
  · subst hh
    rw [send_message_sessions_same]
    simp
  · rw [send_message_sessions_other _ _ _ _ _ hh]
    have : ¬ self = h := fun e => hh e.symm
    simp [this]

theorem send_message_loop_fields (msg : Bytes) (t : Bool) (ids : List String) :
    ∀ (w : World) (c : Nat) (h : Nat),
      ((send_message_loop msg t w c ids).1.sessions h).id = (w.sessions h).id ∧
        ((send_message_loop msg t w c ids).1.sessions h).initial_path_ =
          (w.sessions h).initial_path_ ∧
        ((send_message_loop msg t w c ids).1.sessions h).handshake_pending =
          (w.sessions h).handshake_pending ∧
        ((send_message_loop msg t w c ids).1.sessions h).reads_in_flight =
          (w.sessions h).reads_in_flight ∧
        ((send_message_loop msg t w c ids).1.sessions h).writes_in_flight =
          (w.sessions h).writes_in_flight +
            (ids.filterMap w.m_sessions_id_.find).count h := by
  induction ids with
  | nil => intro w c h; simp [send_message_loop]
  | cons id rest ih =>
    intro w c h
    unfold send_message_loop
    cases hf : w.m_sessions_id_.find id with
    | none =>
      simp only []
      rw [List.filterMap_cons_none hf]
      exact ih w c h
    | some item =>
      simp only []
      rw [List.filterMap_cons_some hf]
      obtain ⟨a1, a2, a3, a4, a5⟩ := ih (send_message w item msg t) (c + 1) h
      obtain ⟨b1, b2, b3, b4, b5⟩ := send_message_fields w item h msg t
      rw [send_message_registry] at a5
      refine ⟨a1.trans b1, a2.trans b2, a3.trans b3, a4.trans b4, ?_⟩
      rw [a5, b5, List.count_cons]
      by_cases e : item = h
      · simp [e]; omega
      · simp [e]

theorem send_message_ids_dispatched (w : World) (ids : List String) (msg : Bytes) (t : Bool) :
    dispatched (send_message_ids w ids msg t).1.trace = dispatched w.trace := by
  unfold send_message_ids
  rw [send_message_loop_trace, dispatched_append, dispatched_issued_writes]
  simp

/-! ## The invariant of reachable states -/

theorem has_opened_snoc (w w' : World) (h : Nat) (e : Event)
    (hev : dispatched w'.trace = dispatched w.trace ++ [e]) :
    has_opened w' h = (has_opened w h || (decide (e.session_of = h) && e.is_open)) := by
  unfold has_opened
  rw [events_of_snoc w w' h e hev]
  by_cases he : e.session_of = h <;> simp [he]

theorem has_closed_snoc (w w' : World) (h : Nat) (e : Event)
    (hev : dispatched w'.trace = dispatched w.trace ++ [e]) :
    has_closed w' h = (has_closed w h || (decide (e.session_of = h) && e.is_close)) := by
  unfold has_closed
  rw [events_of_snoc w w' h e hev]
  by_cases he : e.session_of = h <;> simp [he]

theorem reached_start (ids paths : Nat → String) : Reached ids (start ids paths) := by
  refine ⟨fun h => rfl, ?_, ?_⟩
  · intro k h hf
    simp [start, SessionMap.find, SessionMap.empty, find_entries] at hf
  · intro h _
    exact ⟨rfl, rfl, rfl⟩

/-- A completion on `s` that leaves every other session alone, keeps the id of
`s`, and leaves `s` with its handshake no longer pending, preserves the
invariant. -/
theorem reached_completion (ids : Nat → String) (w w' : World) (s : Nat)
    (hR : Reached ids w) (ho : Outcome w s w')
    (hother : ∀ h, h ≠ s → w'.sessions h = w.sessions h)
    (hid : (w'.sessions s).id = (w.sessions s).id)
    (hpend : (w'.sessions s).handshake_pending = false)
    (hfresh : (∃ p, dispatched w'.trace = dispatched w.trace ++ [Event.opened s p]) →
      events_of w s = []) :
    Reached ids w' := by
  have hidall : ∀ h, (w'.sessions h).id = ids h := by
    intro h
    by_cases hh : h = s
    · subst hh; rw [hid]; exact hR.id_eq h
    · rw [hother h hh]; exact hR.id_eq h
  -- a session other than `s` that was registered stays as it was
  have keep : ∀ (e : Event), dispatched w'.trace = dispatched w.trace ++ [e] →
      e.session_of = s →
      ∀ k h, h ≠ s → w.m_sessions_id_.find k = some h →
        k = ids h ∧ (w'.sessions h).handshake_pending = false ∧
          has_opened w' h = true ∧ has_closed w' h = false := by
    intro e hev hes k h hne hf
    obtain ⟨r1, r2, r3, r4⟩ := hR.registered k h hf
    have hne' : ¬ e.session_of = h := by rw [hes]; exact fun x => hne x.symm
    refine ⟨r1, by rw [hother h hne]; exact r2, ?_, ?_⟩
    · rw [has_opened_snoc w w' h e hev, r3]; simp
    · rw [has_closed_snoc w w' h e hev, r4]; simp [hne']
  have conn : ∀ (e : Event), dispatched w'.trace = dispatched w.trace ++ [e] →
      e.session_of = s →
      ∀ h, (w'.sessions h).handshake_pending = true →
        events_of w' h = [] ∧ (w'.sessions h).reads_in_flight = 0 ∧
          (w'.sessions h).writes_in_flight = 0 := by
    intro e hev hes h hp
    have hne : h ≠ s := by
      intro x; subst x; rw [hpend] at hp; exact absurd hp (by decide)
    have hne' : ¬ e.session_of = h := by rw [hes]; exact fun x => hne x.symm
    rw [hother h hne] at hp ⊢
    obtain ⟨c1, c2, c3⟩ := hR.connecting h hp
    refine ⟨?_, c2, c3⟩
    rw [events_of_snoc w w' h e hev, c1]; simp [hne']
  cases ho with
  | opened hreg hev =>
    refine ⟨hidall, ?_, conn _ hev rfl⟩
    intro k h hf
    rw [hreg] at hf
    by_cases hk : k = (w.sessions s).id
    · subst hk
      unfold SessionMap.find SessionMap.assign at hf
      simp only [] at hf
      rw [find_assign_same] at hf
      cases hf
      have hempty := hfresh ⟨_, hev⟩
      refine ⟨hR.id_eq s, hpend, ?_, ?_⟩
      · rw [has_opened_snoc w w' s _ hev]; simp [Event.session_of, Event.is_open]
      · rw [has_closed_snoc w w' s _ hev]
        unfold has_closed
        rw [hempty]; simp [Event.is_close]
    · unfold SessionMap.find SessionMap.assign at hf
      simp only [] at hf
      rw [find_assign_other _ _ _ _ hk] at hf
      have hne : h ≠ s := by
        intro x; subst x
        exact hk ((hR.registered k h hf).1.trans (hR.id_eq h).symm)
      exact keep _ hev rfl k h hne hf
  | message payload t hreg hev =>
    refine ⟨hidall, ?_, conn _ hev rfl⟩
    intro k h hf
    rw [hreg] at hf
    obtain ⟨r1, r2, r3, r4⟩ := hR.registered k h hf
    by_cases hne : h = s
    · subst hne
      refine ⟨r1, hpend, ?_, ?_⟩
      · rw [has_opened_snoc w w' h _ hev, r3]; simp
      · rw [has_closed_snoc w w' h _ hev, r4]; simp [Event.is_close]
    · exact keep _ hev rfl k h hne hf
  | error ec hreg hev =>
    refine ⟨hidall, ?_, conn _ hev rfl⟩
    intro k h hf
    rw [hreg] at hf
    obtain ⟨r1, r2, r3, r4⟩ := hR.registered k h hf
    by_cases hne : h = s
    · subst hne
      refine ⟨r1, hpend, ?_, ?_⟩
      · rw [has_opened_snoc w w' h _ hev, r3]; simp
      · rw [has_closed_snoc w w' h _ hev, r4]; simp [Event.is_close]
    · exact keep _ hev rfl k h hne hf
  | close ec hreg hev =>
    refine ⟨hidall, ?_, conn _ hev rfl⟩
    intro k h hf
    rw [hreg] at hf
    have hk : k ≠ (w.sessions s).id := by
      intro x; subst x
      unfold SessionMap.find SessionMap.erase_id at hf
      simp only [] at hf
      rw [find_erase_same _ _ w.m_sessions_id_.ascending] at hf
      cases hf
    unfold SessionMap.find SessionMap.erase_id at hf
    simp only [] at hf
    rw [find_erase_other _ _ _ hk] at hf
    have hne : h ≠ s := by
      intro x; subst x
      exact hk ((hR.registered k h hf).1.trans (hR.id_eq h).symm)
    exact keep _ hev rfl k h hne hf
  | silent hreg hev =>
    refine ⟨hidall, ?_, ?_⟩
    · intro k h hf
      rw [hreg] at hf
      obtain ⟨r1, r2, r3, r4⟩ := hR.registered k h hf
      refine ⟨r1, ?_, ?_, ?_⟩
      · by_cases hne : h = s
        · subst hne; exact hpend
        · rw [hother h hne]; exact r2
      · unfold has_opened at r3 ⊢; rw [events_of_same w w' h hev]; exact r3
      · unfold has_closed at r4 ⊢; rw [events_of_same w w' h hev]; exact r4
    · intro h hp
      have hne : h ≠ s := by
        intro x; subst x; rw [hpend] at hp; exact absurd hp (by decide)
      rw [hother h hne] at hp ⊢
      obtain ⟨c1, c2, c3⟩ := hR.connecting h hp
      exact ⟨by rw [events_of_same w w' h hev]; exact c1, c2, c3⟩

theorem do_close_not_opened (w : World) (s : Nat) (ec : ErrorCode) (p : String) :
    dispatched (do_close w s ec).trace ≠ dispatched w.trace ++ [Event.opened s p] := by
  intro heq
  rw [do_close_dispatched] at heq
  have h1 := List.append_cancel_left heq
  by_cases hte : is_transport_error ec = true
  · simp [hte] at h1
  · simp [hte] at h1

theorem read_not_opened (w : World) (s : Nat) (ec : ErrorCode) (data : Bytes) (t : Bool)
    (p : String) :
    dispatched ((Step.read_done s ec data t).apply w).trace ≠
      dispatched w.trace ++ [Event.opened s p] := by
  rw [apply_read_done]
  cases hf : ec.failed with
  | true =>
    rw [on_read_failed _ _ _ _ hf]
    exact do_close_not_opened _ s ec p
  | false =>
    have hne : ec ≠ ws_error_closed := by
      intro e; rw [e] at hf; exact absurd hf (by decide)
    intro heq
    simp [on_read, hne, hf, do_read, dispatched_append, dispatched] at heq

theorem write_not_opened (w : World) (s : Nat) (ec : ErrorCode) (n : Nat) (p : String) :
    dispatched ((Step.write_done s ec n).apply w).trace ≠
      dispatched w.trace ++ [Event.opened s p] := by
  rw [apply_write_done]
  unfold on_write
  split_ifs with hf
  · exact do_close_not_opened _ s ec p
  · intro heq
    simp at heq

theorem reached_send (ids : Nat → String) (w : World) (l : List String) (msg : Bytes)
    (t : Bool) (hR : Reached ids w) : Reached ids (send_message_ids w l msg t).1 := by
  have hreg : (send_message_ids w l msg t).1.m_sessions_id_ = w.m_sessions_id_ :=
    send_message_loop_registry msg t l w 0
  have hev := send_message_ids_dispatched w l msg t
  have hfields := fun h => send_message_loop_fields msg t l w 0 h
  refine ⟨?_, ?_, ?_⟩
  · intro h
    exact ((hfields h).1).trans (hR.id_eq h)
  · intro k h hf
    rw [hreg] at hf
    obtain ⟨r1, r2, r3, r4⟩ := hR.registered k h hf
    refine ⟨r1, ((hfields h).2.2.1).trans r2, ?_, ?_⟩
    · unfold has_opened at r3 ⊢; rw [events_of_same _ _ h hev]; exact r3
    · unfold has_closed at r4 ⊢; rw [events_of_same _ _ h hev]; exact r4
  · intro h hp
    have hp' : (w.sessions h).handshake_pending = true := ((hfields h).2.2.1).symm.trans hp
    obtain ⟨c1, c2, c3⟩ := hR.connecting h hp'
    refine ⟨by rw [events_of_same _ _ h hev]; exact c1, ((hfields h).2.2.2.1).trans c2, ?_⟩
    have hnot : h ∉ l.filterMap w.m_sessions_id_.find := by
      intro hm
      obtain ⟨k, _, hk⟩ := List.mem_filterMap.mp hm
      have := (hR.registered k h hk).2.1
      rw [hp'] at this
      exact absurd this (by decide)
    have hs := send_message_loop_sessions_other msg t l w 0 h hnot
    show ((send_message_loop msg t w 0 l).1.sessions h).writes_in_flight = 0
    rw [hs]; exact c3

theorem reached_step (ids : Nat → String) (w : World) (st : Step)
    (hR : Reached ids w) (hen : st.enabled w = true) : Reached ids (st.apply w) := by
  cases st with
  | handshake_done s ec =>
    have hp : (w.sessions s).handshake_pending = true := hen
    refine reached_completion ids w _ s hR (handshake_outcome w s ec)
      (fun h hne => handshake_sessions_other w s h ec hne) ?_ ?_ ?_
    · rw [handshake_sessions_same]
    · rw [handshake_sessions_same]
    · intro _; exact (hR.connecting s hp).1
  | read_done s ec data t =>
    have hr : 0 < (w.sessions s).reads_in_flight := by
      simpa [Step.enabled] using hen
    have hp : (w.sessions s).handshake_pending = false := by
      cases hx : (w.sessions s).handshake_pending with
      | false => rfl
      | true => have := (hR.connecting s hx).2.1; omega
    refine reached_completion ids w _ s hR (read_outcome w s ec data t)
      (fun h hne => read_sessions_other w s h ec data t hne) ?_ ?_ ?_
    · rw [read_sessions_same]
    · rw [read_sessions_same]; exact hp
    · rintro ⟨p, hev⟩; exact absurd hev (read_not_opened w s ec data t p)
  | write_done s ec n =>
    have hr : 0 < (w.sessions s).writes_in_flight := by
      simpa [Step.enabled] using hen
    have hp : (w.sessions s).handshake_pending = false := by
      cases hx : (w.sessions s).handshake_pending with
      | false => rfl
      | true => have := (hR.connecting s hx).2.2; omega
    refine reached_completion ids w _ s hR (write_outcome w s ec n)
      (fun h hne => write_sessions_other w s h ec n hne) ?_ ?_ ?_
    · rw [write_sessions_same]
    · rw [write_sessions_same]; exact hp
    · rintro ⟨p, hev⟩; exact absurd hev (write_not_opened w s ec n p)
  | send l msg t => exact reached_send ids w l msg t hR

theorem reached_run (ids : Nat → String) (steps : List Step) :
    ∀ w : World, Reached ids w → admissible w steps = true → Reached ids (run w steps) := by
  induction steps with
  | nil => intro w hR _; exact hR
  | cons st rest ih =>
    intro w hR ha
    unfold admissible at ha
    rw [Bool.and_eq_true] at ha
    exact ih _ (reached_step ids w st hR ha.1) ha.2

/-! ## The events of one session, step by step -/

theorem outcome_events_other (w w' : World) (s h : Nat) (ho : Outcome w s w') (hne : h ≠ s) :
    events_of w' h = events_of w h := by
  have hne' : ¬ s = h := fun e => hne e.symm
  cases ho with
  | opened hreg hev => rw [events_of_snoc w w' h _ hev]; simp [Event.session_of, hne']
  | message payload t hreg hev => rw [events_of_snoc w w' h _ hev]; simp [Event.session_of, hne']
  | error ec hreg hev => rw [events_of_snoc w w' h _ hev]; simp [Event.session_of, hne']
  | close ec hreg hev => rw [events_of_snoc w w' h _ hev]; simp [Event.session_of, hne']
  | silent hreg hev => exact events_of_same w w' h hev

theorem terminal_event_session (h : Nat) (path : String) (ec : ErrorCode) :
    (terminal_event h path ec).session_of = h := by
  unfold terminal_event
  split_ifs <;> rfl

theorem terminal_event_is_terminal (h : Nat) (path : String) (ec : ErrorCode) :
    (terminal_event h path ec).is_terminal = true := by
  unfold terminal_event
  split_ifs <;> rfl

theorem terminal_event_not_open (h : Nat) (path : String) (ec : ErrorCode) :
    (terminal_event h path ec).is_open = false := by
  unfold terminal_event
  split_ifs <;> rfl

theorem terminal_event_not_message (h : Nat) (path : String) (ec : ErrorCode) :
    (terminal_event h path ec).is_message = false := by
  unfold terminal_event
  split_ifs <;> rfl

theorem do_close_events_exact (w0 w : World) (s : Nat) (ec : ErrorCode)
    (htr : w0.trace = w.trace) :
    events_of (do_close w0 s ec) s =
      events_of w s ++ [terminal_event s (w0.sessions s).initial_path_ ec] := by
  have hev : dispatched (do_close w0 s ec).trace =
      dispatched w.trace ++ [terminal_event s (w0.sessions s).initial_path_ ec] := by
    rw [do_close_dispatched, htr]
    unfold terminal_event
    by_cases hte : is_transport_error ec = true
    · simp [hte]
    · simp [hte]
  rw [events_of_snoc w _ s _ hev, if_pos (terminal_event_session _ _ _)]

theorem handshake_events_exact (w : World) (s : Nat) (ec : ErrorCode) :
    events_of ((Step.handshake_done s ec).apply w) s =
      events_of w s ++
        (if ec.failed = true then [terminal_event s (w.sessions s).initial_path_ ec]
         else [Event.opened s (w.sessions s).initial_path_]) := by
  rw [apply_handshake_done]
  cases hf : ec.failed with
  | true =>
    have : on_handshake (w.modify s (fun x => { x with handshake_pending := false })) s ec =
        do_close (w.modify s (fun x => { x with handshake_pending := false })) s ec := by
      simp [on_handshake, hf]
    rw [this, do_close_events_exact
      (w.modify s (fun x => { x with handshake_pending := false })) w s ec rfl]
    simp
  | false =>
    have hev : dispatched
        (on_handshake (w.modify s (fun x => { x with handshake_pending := false })) s ec).trace =
        dispatched w.trace ++ [Event.opened s (w.sessions s).initial_path_] := by
      simp [on_handshake, hf, do_read, dispatched_append, dispatched]
    rw [events_of_snoc w _ s _ hev]; simp [Event.session_of]

theorem read_events_exact (w : World) (s : Nat) (ec : ErrorCode) (data : Bytes) (t : Bool) :
    events_of ((Step.read_done s ec data t).apply w) s =
      events_of w s ++
        (if ec.failed = true then [terminal_event s (w.sessions s).initial_path_ ec]
         else [Event.message s (w.sessions s).initial_path_
                 ((w.sessions s).buffer_ ++ data) t]) := by
  rw [apply_read_done]
  cases hf : ec.failed with
  | true =>
    rw [on_read_failed _ _ _ _ hf, do_close_events_exact
      (w.modify s (fun x =>
        { x with reads_in_flight := x.reads_in_flight - 1,
                 buffer_ := x.buffer_ ++ data,
                 got_text := t })) w s ec rfl]
    simp
  | false =>
    have hne : ec ≠ ws_error_closed := by
      intro e; rw [e] at hf; exact absurd hf (by decide)
    have hev : dispatched
        (on_read
          (w.modify s (fun x =>
            { x with reads_in_flight := x.reads_in_flight - 1,
                     buffer_ := x.buffer_ ++ data,
                     got_text := t }))
          s ec data.length).trace =
        dispatched w.trace ++
          [Event.message s (w.sessions s).initial_path_ ((w.sessions s).buffer_ ++ data) t] := by
      simp [on_read, hne, hf, do_read, dispatched_append, dispatched]
    rw [events_of_snoc w _ s _ hev]; simp [Event.session_of]

theorem write_ok_events (w : World) (s h : Nat) (ec : ErrorCode) (n : Nat)
    (hf : ec.failed = false) :
    events_of ((Step.write_done s ec n).apply w) h = events_of w h := by
  rw [apply_write_done]
  simp [on_write, hf, events_of]

theorem send_message_loop_buffer (msg : Bytes) (t : Bool) (ids : List String) :
    ∀ (w : World) (c : Nat) (h : Nat),
      ((send_message_loop msg t w c ids).1.sessions h).buffer_ = (w.sessions h).buffer_ := by
  induction ids with
  | nil => intro w c h; rfl
  | cons id rest ih =>
    intro w c h
    unfold send_message_loop
    cases hf : w.m_sessions_id_.find id with
    | none => simp only []; exact ih w c h
    | some item =>
      simp only []
      rw [ih]
      by_cases hh : h = item
      · subst hh; rw [send_message_sessions_same]
      · rw [send_message_sessions_other _ _ _ _ _ hh]

/-! ## The claims -/

/-- C1: the batch `send_message(ids, msg, is_text)` returns the number of
positions of `ids` whose id is a key of the directory, whatever the directory,
the list, the payload and the flag; unknown ids only lower the count.  The
single-id overload returns whether its id is a key. -/
theorem send_message_ids_counts_registered (w : World) (ids : List String) (msg : Bytes)
    (is_text : Bool) :
    (send_message_ids w ids msg is_text).2 =
        ids.countP (fun id => decide (id ∈ w.m_sessions_id_.keys)) ∧
      ∀ id : String,
        (send_message_id w id msg is_text).2 = decide (id ∈ w.m_sessions_id_.keys) := by
  have hcount : ∀ l : List String, (send_message_ids w l msg is_text).2 =
      l.countP (fun id => decide (id ∈ w.m_sessions_id_.keys)) := by
    intro l
    unfold send_message_ids
    rw [send_message_loop_count]
    omega
  refine ⟨hcount ids, ?_⟩
  intro id
  unfold send_message_id
  simp only []
  rw [hcount [id]]
  by_cases hk : id ∈ w.m_sessions_id_.keys
  · simp [hk]
  · simp [hk]

/-- C1 at a concrete input: with only `a` and `aaa` registered, sending to
`[a, aa, aaa]` returns 2. -/
theorem send_message_ids_counts_registered_witness :
    (send_message_ids world_two_open ["a", "aa", "aaa"] [104, 105] true).2 = 2 :=
  (send_message_ids_counts_registered world_two_open ["a", "aa", "aaa"] [104, 105] true).1.trans
    (by decide)

/-- C2: what the batch `send_message` does with the payload.  It issues one
write per position of `ids` that resolves, in list order, each with the frame
flag `is_text` and a buffer of the size of `msg`, and nothing else leaves the
core; a session no id resolves to is left as it was and the directory is
unchanged.  But the buffer of each write is only a view of a string created by
`make_shared`, and no owner of that string is bound to the operation: when the
call returns every such string has been destroyed while its write is still in
flight, so no write is left with a payload equal to `msg`. -/
theorem send_message_ids_writes_view_destroyed_strings (w : World) (ids : List String)
    (msg : Bytes) (is_text : Bool) :
    (send_message_ids w ids msg is_text).1.trace =
        w.trace ++ issued_writes msg.length is_text w.next_string
          (ids.filterMap w.m_sessions_id_.find) ∧
      (∀ (h data size : Nat) (flag : Bool),
        Effect.async_write h data size flag ∈
            issued_writes msg.length is_text w.next_string
              (ids.filterMap w.m_sessions_id_.find) →
          (send_message_ids w ids msg is_text).1.bytes_at data = none ∧
            0 < ((send_message_ids w ids msg is_text).1.sessions h).writes_in_flight) ∧
      (∀ h : Nat, h ∉ ids.filterMap w.m_sessions_id_.find →
        (send_message_ids w ids msg is_text).1.sessions h = w.sessions h) ∧
      (send_message_ids w ids msg is_text).1.m_sessions_id_ = w.m_sessions_id_ := by
  refine ⟨send_message_loop_trace msg is_text ids w 0, ?_,
    fun h hh => send_message_loop_sessions_other msg is_text ids w 0 h hh,
    send_message_loop_registry msg is_text ids w 0⟩
  intro h data size flag hm
  obtain ⟨h', hh', b, hb1, hb2, he⟩ := mem_issued_writes _ _ _ _ _ hm
  cases he
  constructor
  · unfold World.bytes_at send_message_ids
    rw [send_message_loop_strings, if_pos ⟨hb1, hb2⟩]
    rfl
  · have hf := (send_message_loop_fields msg is_text ids w 0 h).2.2.2.2
    unfold send_message_ids
    rw [hf]
    have : 0 < (ids.filterMap w.m_sessions_id_.find).count h :=
      List.count_pos_iff.mpr hh'
    omega

/-- C2 at a concrete input: sessions 0 and 2 are registered and the two bytes
`hi` are sent to `a`.  One write is issued on session 0, viewing the string at
address 0; when the call returns that write is in flight and the string is
gone. -/
theorem send_message_ids_writes_view_destroyed_strings_witness :
    (send_message_ids world_two_open ["a"] [104, 105] true).1.trace =
        world_two_open.trace ++ [Effect.async_write 0 0 2 true] ∧
      (send_message_ids world_two_open ["a"] [104, 105] true).1.bytes_at 0 = none ∧
      0 < ((send_message_ids world_two_open ["a"] [104, 105] true).1.sessions 0).writes_in_flight :=
  ⟨(send_message_ids_writes_view_destroyed_strings world_two_open ["a"] [104, 105] true).1.trans
      (by decide),
   (send_message_ids_writes_view_destroyed_strings world_two_open ["a"] [104, 105] true).2.1
      0 0 2 true (by decide)⟩

/-- C3: `do_close(ec)` hands exactly one event to the router, tagged with the
session's `initial_path_` and `ec`: a close event when `ec` is a normal
disconnect (no error, `ws::error::closed`, or end of stream), an error event
for every other code.  `on_read` with `ws::error::closed` dispatches exactly
one close event and nothing else; `on_read` with a connection reset dispatches
exactly one error event and nothing else. -/
theorem do_close_dispatches_one_event (w : World) (self : Nat) (ec : ErrorCode)
    (bytes_transferred : Nat) :
    dispatched (do_close w self ec).trace =
        dispatched w.trace ++
          [if ec.value = 0 ∨ ec = ws_error_closed ∨ ec = asio_error_eof
            then Event.close self (w.sessions self).initial_path_ ec
            else Event.error self (w.sessions self).initial_path_ ec] ∧
      dispatched (on_read w self ws_error_closed bytes_transferred).trace =
        dispatched w.trace ++
          [Event.close self (w.sessions self).initial_path_ ws_error_closed] ∧
      dispatched (on_read w self connection_reset bytes_transferred).trace =
        dispatched w.trace ++
          [Event.error self (w.sessions self).initial_path_ connection_reset] := by
  refine ⟨?_, ?_, ?_⟩
  · rw [do_close_dispatched]
    by_cases h : is_transport_error ec = true
    · have h' := (is_transport_error_iff ec).mp h
      have hn : ¬ (ec.value = 0 ∨ ec = ws_error_closed ∨ ec = asio_error_eof) := by
        rintro (h0 | h0 | h0)
        · exact h'.1 h0
        · exact h'.2.1 h0
        · exact h'.2.2 h0
      rw [if_pos h, if_neg hn]
    · have hn : ec.value = 0 ∨ ec = ws_error_closed ∨ ec = asio_error_eof := by
        by_contra hc
        apply h
        apply (is_transport_error_iff ec).mpr
        refine ⟨fun e => hc (Or.inl e), fun e => hc (Or.inr (Or.inl e)),
          fun e => hc (Or.inr (Or.inr e))⟩
      rw [if_neg h, if_pos hn]
  · have : on_read w self ws_error_closed bytes_transferred = do_close w self ws_error_closed := by
      simp [on_read]
    rw [this, do_close_dispatched]
    have : is_transport_error ws_error_closed = false := by decide
    simp [this]
  · have : on_read w self connection_reset bytes_transferred =
        do_close w self connection_reset := by
      unfold on_read
      rw [if_neg (by decide), if_pos (by decide)]
    rw [this, do_close_dispatched]
    have : is_transport_error connection_reset = true := by decide
    simp [this]

/-- C5: on a successful read completion, with `buffer_` holding `b` and the
stream reporting text flag `t`, `on_read` dispatches exactly one message event
with payload `b`, flag `t` and path `initial_path_`, then issues exactly one
read, and that read is issued on an empty `buffer_`; the buffer is empty
afterwards and one more read is in flight. -/
theorem on_read_success_dispatches_message (w : World) (self : Nat) (ec : ErrorCode)
    (bytes_transferred : Nat) (hec : ec.failed = false) :
    (on_read w self ec bytes_transferred).trace =
        w.trace ++
          [Effect.dispatch (.message self (w.sessions self).initial_path_
              (w.sessions self).buffer_ (w.sessions self).got_text),
           Effect.async_read self []] ∧
      ((on_read w self ec bytes_transferred).sessions self).buffer_ = [] ∧
      ((on_read w self ec bytes_transferred).sessions self).reads_in_flight =
        (w.sessions self).reads_in_flight + 1 ∧
      (on_read w self ec bytes_transferred).m_sessions_id_ = w.m_sessions_id_ := by
  have hne : ec ≠ ws_error_closed := by
    intro e; rw [e] at hec; exact absurd hec (by decide)
  unfold on_read
  rw [if_neg hne]
  simp [hec, do_read]

/-- C5 at a concrete input: session 0 is open, its buffer holds `[1, 2]` and the
stream reports a binary message. -/
theorem on_read_success_dispatches_message_witness :
    (on_read (world_two_open.modify 0 (fun s => { s with buffer_ := [1, 2], got_text := false }))
        0 ec_success 2).trace =
        (world_two_open.modify 0
            (fun s => { s with buffer_ := [1, 2], got_text := false })).trace ++
          [Effect.dispatch (.message 0 "/ws" [1, 2] false), Effect.async_read 0 []] :=
  (on_read_success_dispatches_message
    (world_two_open.modify 0 (fun s => { s with buffer_ := [1, 2], got_text := false }))
    0 ec_success 2 (by decide)).1

/-- C8: when `ec` is a genuine transport error (non-zero, not
`ws::error::closed`, not end of stream), `do_close(ec)` leaves the directory
exactly as it was, and so does `on_write(ec)`; every later batch
`send_message` returns the count it would have returned before, and a send to
the failing session's own id still succeeds when the id was registered. -/
theorem do_close_error_keeps_registry (w : World) (self : Nat) (ec : ErrorCode)
    (h0 : ec.value ≠ 0) (h1 : ec ≠ ws_error_closed) (h2 : ec ≠ asio_error_eof) :
    (do_close w self ec).m_sessions_id_ = w.m_sessions_id_ ∧
      (∀ n : Nat, (on_write w self ec n).m_sessions_id_ = w.m_sessions_id_) ∧
      (∀ (ids : List String) (msg : Bytes) (t : Bool),
        (send_message_ids (do_close w self ec) ids msg t).2 =
          (send_message_ids w ids msg t).2) ∧
      (∀ (msg : Bytes) (t : Bool), (w.sessions self).id ∈ w.m_sessions_id_.keys →
        (send_message_id (do_close w self ec) (w.sessions self).id msg t).2 = true) := by
  have hte : is_transport_error ec = true := (is_transport_error_iff ec).mpr ⟨h0, h1, h2⟩
  have hreg : (do_close w self ec).m_sessions_id_ = w.m_sessions_id_ := by
    rw [do_close_error w self ec hte]; rfl
  have hcount : ∀ (ids : List String) (msg : Bytes) (t : Bool),
      (send_message_ids (do_close w self ec) ids msg t).2 =
        (send_message_ids w ids msg t).2 := by
    intro ids msg t
    unfold send_message_ids
    rw [send_message_loop_count, send_message_loop_count, hreg]
  refine ⟨hreg, ?_, hcount, ?_⟩
  · intro n
    have hf : ec.failed = true := by simp [ErrorCode.failed, h0]
    simp [on_write, hf, hreg]
  · intro msg t hk
    unfold send_message_id
    simp only []
    rw [hcount]
    unfold send_message_ids
    rw [send_message_loop_count]
    simp [hk]

/-- C8 at a concrete input: session 0 is registered and its read fails with a
connection reset. -/
theorem do_close_error_keeps_registry_witness :
    (do_close world_two_open 0 connection_reset).m_sessions_id_ =
        world_two_open.m_sessions_id_ ∧
      (send_message_id (do_close world_two_open 0 connection_reset) "a" [104] true).2 = true :=
  ⟨(do_close_error_keeps_registry world_two_open 0 connection_reset
      (by decide) (by decide) (by decide)).1,
   (do_close_error_keeps_registry world_two_open 0 connection_reset
      (by decide) (by decide) (by decide)).2.2.2 [104] true (by decide)⟩

/-- C9: when `ec` is a normal disconnect, the directory after `do_close(ec)` is
the directory before without the closing session's own id: that id no longer
resolves, every other id resolves to the same session as before, the entries
are the old entries minus the one with that key, and an absent id leaves the
directory unchanged.  Closing twice leaves the directory of closing once.  The
erase precedes the dispatch of the close event. -/
theorem do_close_normal_erases_own_id (w : World) (self : Nat) (ec : ErrorCode)
    (hn : ec.value = 0 ∨ ec = ws_error_closed ∨ ec = asio_error_eof) :
    (do_close w self ec).m_sessions_id_.find (w.sessions self).id = none ∧
      (∀ k : String, k ≠ (w.sessions self).id →
        (do_close w self ec).m_sessions_id_.find k = w.m_sessions_id_.find k) ∧
      (do_close w self ec).m_sessions_id_.entries =
        w.m_sessions_id_.entries.filter (fun p => decide (p.1 ≠ (w.sessions self).id)) ∧
      (w.m_sessions_id_.find (w.sessions self).id = none →
        (do_close w self ec).m_sessions_id_ = w.m_sessions_id_) ∧
      (do_close (do_close w self ec) self ec).m_sessions_id_ =
        (do_close w self ec).m_sessions_id_ ∧
      (do_close w self ec).trace =
        w.trace
          ++ (if (w.m_sessions_id_.find (w.sessions self).id).isSome
                then [Effect.registry_erase (w.sessions self).id] else [])
          ++ [Effect.dispatch (.close self (w.sessions self).initial_path_ ec)] := by
  have hte : is_transport_error ec = false := by
    cases h : is_transport_error ec with
    | false => rfl
    | true =>
      have h' := (is_transport_error_iff ec).mp h
      rcases hn with h0 | h0 | h0
      · exact absurd h0 h'.1
      · exact absurd h0 h'.2.1
      · exact absurd h0 h'.2.2
  have hreg := do_close_normal_registry w self ec hte
  have hnone : (do_close w self ec).m_sessions_id_.find (w.sessions self).id = none := by
    rw [hreg]
    exact find_erase_same _ _ w.m_sessions_id_.ascending
  have habsent : ∀ (m : SessionMap) (id : String), m.find id = none → m.erase_id id = m := by
    intro m id hf
    apply SessionMap.ext_entries
    exact erase_entries_absent _ _ hf
  refine ⟨hnone, ?_, ?_, ?_, ?_, do_close_normal_trace w self ec hte⟩
  · intro k hk
    rw [hreg]
    exact find_erase_other _ _ _ hk
  · rw [hreg]
    exact erase_entries_eq_filter _ _ w.m_sessions_id_.ascending
  · intro hf
    rw [hreg]
    exact habsent _ _ hf
  · rw [do_close_normal_registry (do_close w self ec) self ec hte, do_close_sessions]
    exact habsent _ _ hnone

/-- C9 at a concrete input: sessions 0 and 2 are registered and session 0 is
closed by its peer. -/
theorem do_close_normal_erases_own_id_witness :
    (do_close world_two_open 0 ws_error_closed).m_sessions_id_.entries = [("aaa", 2)] ∧
      (do_close world_two_open 0 ws_error_closed).trace =
        world_two_open.trace ++
          [Effect.registry_erase "a", Effect.dispatch (.close 0 "/ws" ws_error_closed)] :=
  ⟨(do_close_normal_erases_own_id world_two_open 0 ws_error_closed
      (Or.inr (Or.inl rfl))).2.2.1.trans (by decide),
   (do_close_normal_erases_own_id world_two_open 0 ws_error_closed
      (Or.inr (Or.inl rfl))).2.2.2.2.2.trans (by decide)⟩

theorem example_ids_injective : Function.Injective example_ids := by
  intro a b hab
  unfold example_ids at hab
  have h1 : List.replicate (a + 1) 'a' = List.replicate (b + 1) 'a' := by
    injection hab
  have h2 := congrArg List.length h1
  simp at h2
  exact h2

/-- With pairwise distinct ids, a completion keeps every open and not yet closed
session filed under its own id. -/
theorem filed_completion (ids : Nat → String) (hinj : Function.Injective ids)
    (w w' : World) (s : Nat) (hR : Reached ids w) (ho : Outcome w s w')
    (hF : ∀ h, has_opened w h = true → has_closed w h = false →
      w.m_sessions_id_.find (ids h) = some h) :
    ∀ h, has_opened w' h = true → has_closed w' h = false →
      w'.m_sessions_id_.find (ids h) = some h := by
  intro h hop hcl
  have hids : (w.sessions s).id = ids s := hR.id_eq s
  cases ho with
  | opened hreg hev =>
    rw [hreg, hids]
    by_cases hh : h = s
    · subst hh
      exact find_assign_same _ _ _
    · have hne : ids h ≠ ids s := fun e => hh (hinj e)
      have hne' : ¬ s = h := fun e => hh e.symm
      unfold SessionMap.find SessionMap.assign
      simp only []
      rw [find_assign_other _ _ _ _ hne]
      rw [has_opened_snoc w w' h _ hev] at hop
      rw [has_closed_snoc w w' h _ hev] at hcl
      simp [Event.session_of, hne'] at hop hcl
      exact hF h hop hcl
  | message payload t hreg hev =>
    rw [hreg]
    rw [has_opened_snoc w w' h _ hev] at hop
    rw [has_closed_snoc w w' h _ hev] at hcl
    simp [Event.is_open, Event.is_close] at hop hcl
    exact hF h hop hcl
  | error ec hreg hev =>
    rw [hreg]
    rw [has_opened_snoc w w' h _ hev] at hop
    rw [has_closed_snoc w w' h _ hev] at hcl
    simp [Event.is_open, Event.is_close] at hop hcl
    exact hF h hop hcl
  | close ec hreg hev =>
    rw [hreg, hids]
    rw [has_opened_snoc w w' h _ hev] at hop
    rw [has_closed_snoc w w' h _ hev] at hcl
    simp [Event.is_open, Event.is_close, Event.session_of] at hop hcl
    have hne : ids h ≠ ids s := fun e => hcl.2 (hinj e).symm
    unfold SessionMap.find SessionMap.erase_id
    simp only []
    rw [find_erase_other _ _ _ hne]
    exact hF h hop hcl.1
  | silent hreg hev =>
    rw [hreg]
    unfold has_opened at hop
    unfold has_closed at hcl
    rw [events_of_same w w' h hev] at hop hcl
    exact hF h hop hcl

theorem filed_step (ids : Nat → String) (hinj : Function.Injective ids)
    (w : World) (st : Step) (hR : Reached ids w)
    (hF : ∀ h, has_opened w h = true → has_closed w h = false →
      w.m_sessions_id_.find (ids h) = some h) :
    ∀ h, has_opened (st.apply w) h = true → has_closed (st.apply w) h = false →
      (st.apply w).m_sessions_id_.find (ids h) = some h := by
  cases st with
  | handshake_done s ec =>
    exact filed_completion ids hinj w _ s hR (handshake_outcome w s ec) hF
  | read_done s ec data t =>
    exact filed_completion ids hinj w _ s hR (read_outcome w s ec data t) hF
  | write_done s ec n =>
    exact filed_completion ids hinj w _ s hR (write_outcome w s ec n) hF
  | send l msg t =>
    intro h hop hcl
    rw [apply_send] at hop hcl ⊢
    have hev := send_message_ids_dispatched w l msg t
    unfold has_opened at hop
    unfold has_closed at hcl
    rw [events_of_same _ _ h hev] at hop hcl
    have hreg : (send_message_ids w l msg t).1.m_sessions_id_ = w.m_sessions_id_ :=
      send_message_loop_registry msg t l w 0
    rw [hreg]
    exact hF h hop hcl

theorem filed_run (ids : Nat → String) (hinj : Function.Injective ids) (steps : List Step) :
    ∀ w : World, Reached ids w →
      (∀ h, has_opened w h = true → has_closed w h = false →
        w.m_sessions_id_.find (ids h) = some h) →
      admissible w steps = true →
      ∀ h, has_opened (run w steps) h = true → has_closed (run w steps) h = false →
        (run w steps).m_sessions_id_.find (ids h) = some h := by
  induction steps with
  | nil => intro w _ hF _; exact hF
  | cons st rest ih =>
    intro w hR hF ha
    unfold admissible at ha
    rw [Bool.and_eq_true] at ha
    exact ih _ (reached_step ids w st hR ha.1) (filed_step ids hinj w st hR hF) ha.2

/-- C4: in every state reached from the empty directory by completions and
`send_message` calls, on sessions with pairwise distinct ids, the id of a
session resolves to that session exactly when an open event has been dispatched
for the session and no close event has. -/
theorem registered_iff_opened_not_closed (ids paths : Nat → String) (steps : List Step)
    (h : Nat) (hinj : Function.Injective ids)
    (hadm : admissible (start ids paths) steps = true) :
    (run (start ids paths) steps).m_sessions_id_.find
        ((run (start ids paths) steps).sessions h).id = some h ↔
      (has_opened (run (start ids paths) steps) h = true ∧
        has_closed (run (start ids paths) steps) h = false) := by
  have hR := reached_run ids steps (start ids paths) (reached_start ids paths) hadm
  rw [hR.id_eq h]
  constructor
  · intro hf
    exact (hR.registered _ _ hf).2.2
  · rintro ⟨hop, hcl⟩
    refine filed_run ids hinj steps (start ids paths) (reached_start ids paths) ?_ hadm h hop hcl
    intro h' hop' _
    simp [has_opened, events_of, start, dispatched] at hop'

/-- C4 at a concrete input: session 0 is open, session 1 has been closed by its
peer; the id of session 0 resolves and the id of session 1 does not. -/
theorem registered_iff_opened_not_closed_witness :
    ((run (start example_ids example_paths) steps_two_sessions).m_sessions_id_.find
        ((run (start example_ids example_paths) steps_two_sessions).sessions 0).id = some 0 ↔
      (has_opened (run (start example_ids example_paths) steps_two_sessions) 0 = true ∧
        has_closed (run (start example_ids example_paths) steps_two_sessions) 0 = false)) ∧
    ((run (start example_ids example_paths) steps_two_sessions).m_sessions_id_.find
        ((run (start example_ids example_paths) steps_two_sessions).sessions 1).id = some 1 ↔
      (has_opened (run (start example_ids example_paths) steps_two_sessions) 1 = true ∧
        has_closed (run (start example_ids example_paths) steps_two_sessions) 1 = false)) :=
  ⟨registered_iff_opened_not_closed example_ids example_paths steps_two_sessions 0
      example_ids_injective (by decide),
   registered_iff_opened_not_closed example_ids example_paths steps_two_sessions 1
      example_ids_injective (by decide)⟩

theorem has_opened_of_not_opened (w w' : World) (s h : Nat) (ho : Outcome w s w')
    (hno : ∀ p, dispatched w'.trace ≠ dispatched w.trace ++ [Event.opened s p]) :
    has_opened w' h = has_opened w h := by
  cases ho with
  | opened hreg hev => exact absurd hev (hno _)
  | message payload t hreg hev => rw [has_opened_snoc w w' h _ hev]; simp [Event.is_open]
  | error ec hreg hev => rw [has_opened_snoc w w' h _ hev]; simp [Event.is_open]
  | close ec hreg hev => rw [has_opened_snoc w w' h _ hev]; simp [Event.is_open]
  | silent hreg hev => unfold has_opened; rw [events_of_same w w' h hev]

theorem record_start (ids paths : Nat → String) (h : Nat) :
    HandshakeRecord [] (start ids paths) h := by
  unfold HandshakeRecord
  refine ⟨fun _ ec hm => (List.not_mem_nil _ hm).elim, ?_,
    fun ec hm => (List.not_mem_nil _ hm).elim⟩
  intro hop
  simp [has_opened, events_of, start, dispatched] at hop

/-- A step other than a handshake completion of `h`, which leaves the pending
flag of `h` and its open events as they were, keeps the record. -/
theorem record_of_same (past : List Step) (w w' : World) (st : Step) (h : Nat)
    (hR : HandshakeRecord past w h)
    (hp : (w'.sessions h).handshake_pending = (w.sessions h).handshake_pending)
    (hop : has_opened w' h = has_opened w h)
    (hns : ∀ ec, st ≠ Step.handshake_done h ec) :
    HandshakeRecord (past ++ [st]) w' h := by
  obtain ⟨r1, r2, r3⟩ := hR
  unfold HandshakeRecord
  have hmem : ∀ ec, Step.handshake_done h ec ∈ past ++ [st] →
      Step.handshake_done h ec ∈ past := by
    intro ec hm
    rcases List.mem_append.mp hm with h1 | h1
    · exact h1
    · rw [List.mem_singleton] at h1
      exact absurd h1.symm (hns ec)
  refine ⟨?_, ?_, ?_⟩
  · intro hpend ec hm
    rw [hp] at hpend
    exact r1 hpend ec (hmem ec hm)
  · intro ho
    rw [hop] at ho
    obtain ⟨ec, hm, hf⟩ := r2 ho
    exact ⟨ec, List.mem_append_left _ hm, hf⟩
  · intro ec hm hf
    rw [hop]
    exact r3 ec (hmem ec hm) hf

theorem record_step (ids : Nat → String) (past : List Step) (w : World) (st : Step) (h : Nat)
    (hW : Reached ids w) (hR : HandshakeRecord past w h) (hen : st.enabled w = true) :
    HandshakeRecord (past ++ [st]) (st.apply w) h := by
  cases st with
  | handshake_done s ec =>
    by_cases hh : h = s
    · subst hh
      have hpend : (w.sessions h).handshake_pending = true := hen
      have hnone := hR.1 hpend
      have hempty := (hW.connecting h hpend).1
      have hmem : ∀ ec0, Step.handshake_done h ec0 ∈ past ++ [Step.handshake_done h ec] →
          ec0 = ec := by
        intro ec0 hm
        rcases List.mem_append.mp hm with h1 | h1
        · exact absurd h1 (hnone ec0)
        · rw [List.mem_singleton] at h1
          injection h1
      have hpa : (((Step.handshake_done h ec).apply w).sessions h).handshake_pending
          = false := by
        rw [handshake_sessions_same]
      have hev : events_of ((Step.handshake_done h ec).apply w) h =
          if ec.failed = true then [terminal_event h (w.sessions h).initial_path_ ec]
          else [Event.opened h (w.sessions h).initial_path_] := by
        have := handshake_events_exact w h ec
        rw [hempty] at this
        simpa using this
      unfold HandshakeRecord
      refine ⟨fun hc => by rw [hpa] at hc; exact absurd hc (by decide), ?_, ?_⟩
      · intro hop
        cases hf : ec.failed with
        | false => exact ⟨ec, List.mem_append_right _ (List.mem_singleton.mpr rfl), hf⟩
        | true =>
          unfold has_opened at hop
          rw [hev, if_pos hf] at hop
          unfold terminal_event at hop
          split_ifs at hop <;> simp [Event.is_open] at hop
      · intro ec0 hm hf0
        have := hmem ec0 hm
        subst this
        unfold has_opened
        rw [hev, if_pos hf0]
        unfold terminal_event
        split_ifs <;> simp [Event.is_open]
    · refine record_of_same past w _ _ h hR ?_ ?_ ?_
      · rw [handshake_sessions_other w s h ec hh]
      · unfold has_opened
        rw [outcome_events_other w _ s h (handshake_outcome w s ec) hh]
      · intro ec0 he
        injection he with h1 _
        exact hh h1.symm
  | read_done s ec data t =>
    refine record_of_same past w _ _ h hR ?_
      (has_opened_of_not_opened w _ s h (read_outcome w s ec data t)
        (fun p => read_not_opened w s ec data t p))
      (fun ec0 he => by cases he)
    by_cases hh : h = s
    · subst hh; rw [read_sessions_same]
    · rw [read_sessions_other w s h ec data t hh]
  | write_done s ec n =>
    refine record_of_same past w _ _ h hR ?_
      (has_opened_of_not_opened w _ s h (write_outcome w s ec n)
        (fun p => write_not_opened w s ec n p))
      (fun ec0 he => by cases he)
    by_cases hh : h = s
    · subst hh; rw [write_sessions_same]
    · rw [write_sessions_other w s h ec n hh]
  | send l msg t =>
    refine record_of_same past w _ _ h hR ?_ ?_ (fun ec0 he => by cases he)
    · rw [apply_send]
      exact (send_message_loop_fields msg t l w 0 h).2.2.1
    · rw [apply_send]
      unfold has_opened
      rw [events_of_same _ _ h (send_message_ids_dispatched w l msg t)]

theorem record_run (ids : Nat → String) (h : Nat) (rest : List Step) :
    ∀ (past : List Step) (w : World), Reached ids w → HandshakeRecord past w h →
      admissible w rest = true → HandshakeRecord (past ++ rest) (run w rest) h := by
  induction rest with
  | nil => intro past w _ hR _; simpa using hR
  | cons st rest ih =>
    intro past w hW hR ha
    unfold admissible at ha
    rw [Bool.and_eq_true] at ha
    have := ih (past ++ [st]) (st.apply w) (reached_step ids w st hW ha.1)
      (record_step ids past w st h hW hR ha.1) ha.2
    simpa using this

/-- C7 fails as stated: after a successful handshake and a read that fails with a
connection reset, session 0 has dispatched an error event, is still in the
directory under its id, and the batch `send_message` issues a write on it. -/
theorem registry_holds_session_after_error :
    admissible (start example_ids example_paths)
        [.handshake_done 0 ec_success, .read_done 0 connection_reset [] true] = true ∧
      world_after_reset.m_sessions_id_.find "a" = some 0 ∧
      has_terminal world_after_reset 0 = true ∧
      (send_message_ids world_after_reset ["a"] [104] true).2 = 1 ∧
      (send_message_ids world_after_reset ["a"] [104] true).1.trace =
        world_after_reset.trace ++ [Effect.async_write 0 0 1 true] := by
  decide

/-- C7, amended: in every reachable state, every session stored in the directory
is one whose handshake has succeeded (its handshake completion is among the
steps taken and carried a non-failing code, its open event has been
dispatched) and for which no close event has been dispatched; an error event
may have been dispatched for it.  Hence every write the batch `send_message`
issues is on a session whose handshake has succeeded and that has dispatched
no close event. -/
theorem registered_sessions_opened_not_closed (ids paths : Nat → String) (steps : List Step)
    (hadm : admissible (start ids paths) steps = true) :
    (∀ (k : String) (h : Nat),
        (run (start ids paths) steps).m_sessions_id_.find k = some h →
          (∃ ec, Step.handshake_done h ec ∈ steps ∧ ec.failed = false) ∧
            (∀ ec, Step.handshake_done h ec ∈ steps → ec.failed = false) ∧
            ((run (start ids paths) steps).sessions h).handshake_pending = false ∧
            has_opened (run (start ids paths) steps) h = true ∧
            has_closed (run (start ids paths) steps) h = false) ∧
      (∀ (l : List String) (msg : Bytes) (t : Bool) (h data size : Nat) (flag : Bool),
        Effect.async_write h data size flag ∈
            ((send_message_ids (run (start ids paths) steps) l msg t).1.trace.drop
              (run (start ids paths) steps).trace.length) →
          (∃ ec, Step.handshake_done h ec ∈ steps ∧ ec.failed = false) ∧
            has_closed (run (start ids paths) steps) h = false) := by
  have hW := reached_run ids steps (start ids paths) (reached_start ids paths) hadm
  have hrec : ∀ h, HandshakeRecord steps (run (start ids paths) steps) h := by
    intro h
    have := record_run ids h steps [] (start ids paths) (reached_start ids paths)
      (record_start ids paths h) hadm
    simpa using this
  have key : ∀ (k : String) (h : Nat),
      (run (start ids paths) steps).m_sessions_id_.find k = some h →
        (∃ ec, Step.handshake_done h ec ∈ steps ∧ ec.failed = false) ∧
          (∀ ec, Step.handshake_done h ec ∈ steps → ec.failed = false) ∧
          ((run (start ids paths) steps).sessions h).handshake_pending = false ∧
          has_opened (run (start ids paths) steps) h = true ∧
          has_closed (run (start ids paths) steps) h = false := by
    intro k h hf
    obtain ⟨_, r2, r3, r4⟩ := hW.registered k h hf
    refine ⟨(hrec h).2.1 r3, ?_, r2, r3, r4⟩
    intro ec hm
    cases hfail : ec.failed with
    | false => rfl
    | true =>
      have := (hrec h).2.2 ec hm hfail
      rw [r3] at this
      exact absurd this (by decide)
  refine ⟨key, ?_⟩
  intro l msg t h data size flag hm
  unfold send_message_ids at hm
  rw [send_message_loop_trace, List.drop_left] at hm
  obtain ⟨h', hmem, b, _, _, he⟩ := mem_issued_writes _ _ _ _ _ hm
  cases he
  obtain ⟨k, _, hk⟩ := List.mem_filterMap.mp hmem
  exact ⟨(key k h hk).1, (key k h hk).2.2.2.2⟩

/-- C7 (amended) at a concrete input: after the run in which session 1 has been
closed by its peer, the id `a` resolves to session 0, whose handshake completed
with the success code and which has dispatched no close event. -/
theorem registered_sessions_opened_not_closed_witness :
    (∃ ec, Step.handshake_done 0 ec ∈ steps_two_sessions ∧ ec.failed = false) ∧
      (∀ ec, Step.handshake_done 0 ec ∈ steps_two_sessions → ec.failed = false) ∧
      ((run (start example_ids example_paths) steps_two_sessions).sessions 0).handshake_pending
        = false ∧
      has_opened (run (start example_ids example_paths) steps_two_sessions) 0 = true ∧
      has_closed (run (start example_ids example_paths) steps_two_sessions) 0 = false :=
  (registered_sessions_opened_not_closed example_ids example_paths steps_two_sessions
    (by decide)).1 "a" 0 (by decide)

theorem filterMap_filter_isSome (f : String → Option Nat) (l : List String) :
    (l.filter (fun x => (f x).isSome)).filterMap f = l.filterMap f := by
  induction l with
  | nil => rfl
  | cons a rest ih =>
    cases hf : f a with
    | none =>
      rw [List.filter_cons_of_neg (by simp [hf]), List.filterMap_cons_none hf, ih]
    | some x =>
      rw [List.filter_cons_of_pos (by simp [hf]), List.filterMap_cons_some hf,
        List.filterMap_cons_some hf, ih]

theorem count_resolved_le_one (f : String → Option Nat) (h : Nat) (k0 : String)
    (hk : ∀ k, f k = some h → k = k0) :
    ∀ l : List String, l.Nodup → (l.filterMap f).count h ≤ 1 := by
  intro l
  induction l with
  | nil => intro _; simp
  | cons id rest ih =>
    intro hnd
    rw [List.nodup_cons] at hnd
    cases hf : f id with
    | none =>
      rw [List.filterMap_cons_none hf]
      exact ih hnd.2
    | some x =>
      rw [List.filterMap_cons_some hf, List.count_cons]
      by_cases hx : x = h
      · subst hx
        have hid : id = k0 := hk id hf
        have hnot : x ∉ rest.filterMap f := by
          intro hm
          obtain ⟨k, hkm, hkf⟩ := List.mem_filterMap.mp hm
          have : k = id := (hk k hkf).trans hid.symm
          exact hnd.1 (this ▸ hkm)
        rw [List.count_eq_zero_of_not_mem hnot]
        simp
      · have := ih hnd.2
        simp [hx]
        exact this

/-- C10 fails as stated: session 0 is open with no write outstanding, and one
batch call that names its id twice leaves two writes in flight on it. -/
theorem send_twice_two_writes_in_flight :
    admissible_when (fun w st => st.writes_idle w)
        (start example_ids example_paths) steps_send_twice = true ∧
      ((run (start example_ids example_paths) steps_send_twice).sessions 0).writes_in_flight
        = 2 := by
  decide

theorem writes_le_one_step (ids : Nat → String) (w : World) (st : Step)
    (hR : Reached ids w) (hidle : st.writes_idle w = true) (hdis : st.ids_distinct w = true)
    (hW : ∀ h, (w.sessions h).writes_in_flight ≤ 1) :
    ∀ h, ((st.apply w).sessions h).writes_in_flight ≤ 1 := by
  intro h
  cases st with
  | handshake_done s ec =>
    by_cases hh : h = s
    · subst hh; rw [handshake_sessions_same]; exact hW h
    · rw [handshake_sessions_other w s h ec hh]; exact hW h
  | read_done s ec data t =>
    by_cases hh : h = s
    · subst hh; rw [read_sessions_same]; exact hW h
    · rw [read_sessions_other w s h ec data t hh]; exact hW h
  | write_done s ec n =>
    by_cases hh : h = s
    · subst hh; rw [write_sessions_same]
      have := hW h
      show (w.sessions h).writes_in_flight - 1 ≤ 1
      omega
    · rw [write_sessions_other w s h ec n hh]; exact hW h
  | send l msg t =>
    rw [apply_send]
    have hfields := (send_message_loop_fields msg t l w 0 h).2.2.2.2
    show ((send_message_loop msg t w 0 l).1.sessions h).writes_in_flight ≤ 1
    rw [hfields]
    have hnd : (l.filter (fun id => (w.m_sessions_id_.find id).isSome)).Nodup := by
      simpa [Step.ids_distinct] using hdis
    have hcount := count_resolved_le_one w.m_sessions_id_.find h (ids h)
      (fun k hk => (hR.registered k h hk).1) _ hnd
    rw [filterMap_filter_isSome] at hcount
    by_cases hm : h ∈ l.filterMap w.m_sessions_id_.find
    · obtain ⟨k, hkm, hkf⟩ := List.mem_filterMap.mp hm
      have hall : ∀ id ∈ l, (match w.m_sessions_id_.find id with
          | none => true
          | some h => (w.sessions h).writes_in_flight == 0) = true := by
        simpa [Step.writes_idle] using hidle
      have hz := hall k hkm
      rw [hkf] at hz
      have hz' : (w.sessions h).writes_in_flight = 0 := by simpa using hz
      omega
    · rw [List.count_eq_zero_of_not_mem hm]
      exact hW h

theorem writes_le_one_run (ids : Nat → String) (steps : List Step) :
    ∀ w : World, Reached ids w → (∀ h, (w.sessions h).writes_in_flight ≤ 1) →
      admissible_when (fun w st => st.writes_idle w && st.ids_distinct w) w steps = true →
      ∀ h, ((run w steps).sessions h).writes_in_flight ≤ 1 := by
  induction steps with
  | nil => intro w _ hW _; exact hW
  | cons st rest ih =>
    intro w hR hW ha
    unfold admissible_when at ha
    simp only [Bool.and_eq_true] at ha
    obtain ⟨⟨hen, hidle, hdis⟩, hrest⟩ := ha
    exact ih _ (reached_step ids w st hR hen)
      (writes_le_one_step ids w st hR hidle hdis hW) hrest

/-- C10, amended: in every state reached by completions and `send_message` calls,
where each call names no registered id twice and addresses no session that has
a write outstanding, every session has at most one write in flight. -/
theorem at_most_one_write_in_flight (ids paths : Nat → String) (steps : List Step) (h : Nat)
    (hadm : admissible_when (fun w st => st.writes_idle w && st.ids_distinct w)
      (start ids paths) steps = true) :
    ((run (start ids paths) steps).sessions h).writes_in_flight ≤ 1 :=
  writes_le_one_run ids steps (start ids paths) (reached_start ids paths)
    (fun _ => Nat.zero_le 1) hadm h

/-- C10 (amended) at a concrete input: session 0 is open, and one call names its
id once and the unregistered id `aa` twice. -/
theorem at_most_one_write_in_flight_witness :
    ((run (start example_ids example_paths)
        [.handshake_done 0 ec_success,
         .send ["aa", "a", "aa"] [104] true]).sessions 0).writes_in_flight ≤ 1 :=
  at_most_one_write_in_flight example_ids example_paths
    [.handshake_done 0 ec_success, .send ["aa", "a", "aa"] [104] true] 0 (by decide)

theorem phase_of_same (paths : Nat → String) (past : List Step) (w w' : World) (st : Step)
    (h : Nat)
    (hpath : (w'.sessions h).initial_path_ = (w.sessions h).initial_path_)
    (hp : (w'.sessions h).handshake_pending = (w.sessions h).handshake_pending)
    (hr : (w'.sessions h).reads_in_flight = (w.sessions h).reads_in_flight)
    (hb : (w'.sessions h).buffer_ = (w.sessions h).buffer_)
    (he : events_of w' h = events_of w h)
    (hf : Step.events_for h (paths h) st = [])
    (hns : ∀ ec, st ≠ Step.handshake_done h ec)
    (hnr : ∀ ec d t, st ≠ Step.read_done h ec d t)
    (hP : SessionPhase paths past w h) : SessionPhase paths (past ++ [st]) w' h := by
  have hmh : ∀ ec, Step.handshake_done h ec ∈ past ++ [st] ↔
      Step.handshake_done h ec ∈ past := by
    intro ec
    constructor
    · intro hm
      rcases List.mem_append.mp hm with h1 | h1
      · exact h1
      · rw [List.mem_singleton] at h1
        exact absurd h1.symm (hns ec)
    · exact fun hm => List.mem_append_left _ hm
  have hmr : ∀ ec d t, Step.read_done h ec d t ∈ past ++ [st] ↔
      Step.read_done h ec d t ∈ past := by
    intro ec d t
    constructor
    · intro hm
      rcases List.mem_append.mp hm with h1 | h1
      · exact h1
      · rw [List.mem_singleton] at h1
        exact absurd h1.symm (hnr ec d t)
    · exact fun hm => List.mem_append_left _ hm
  unfold SessionPhase at hP ⊢
  rw [hpath, hp, hr, hb, he, List.flatMap_append]
  simp only [List.flatMap_cons, List.flatMap_nil, hf, List.append_nil, hmh, hmr]
  exact hP

theorem phase_start (ids paths : Nat → String) (h : Nat) :
    SessionPhase paths [] (start ids paths) h := by
  unfold SessionPhase
  refine ⟨rfl, rfl, Or.inl ⟨rfl, rfl, rfl, rfl, ?_, ?_⟩⟩
  · intro ec hm; exact (List.not_mem_nil _ hm).elim
  · intro ec d t hm; exact (List.not_mem_nil _ hm).elim

theorem phase_handshake (paths : Nat → String) (past : List Step) (w : World) (h : Nat)
    (ec : ErrorCode) (hP : SessionPhase paths past w h)
    (hen : (Step.handshake_done h ec).enabled w = true) :
    SessionPhase paths (past ++ [Step.handshake_done h ec])
      ((Step.handshake_done h ec).apply w) h := by
  have hpend : (w.sessions h).handshake_pending = true := hen
  obtain ⟨hpath0, hev0, hcases⟩ := hP
  have hfalse : (w.sessions h).handshake_pending = false → False := by
    intro hc; rw [hc] at hpend; exact absurd hpend (by decide)
  rcases hcases with ⟨_, hr, hb, he, hnh, hnr⟩ | ⟨hp, _⟩ | ⟨hp, _⟩ | ⟨hp, _⟩
  · have hev : events_of ((Step.handshake_done h ec).apply w) h =
        if ec.failed = true then [terminal_event h (paths h) ec]
        else [Event.opened h (paths h)] := by
      rw [handshake_events_exact, he, hpath0]; rfl
    have hmh : ∀ ec0, Step.handshake_done h ec0 ∈ past ++ [Step.handshake_done h ec] →
        ec0 = ec := by
      intro ec0 hm
      rcases List.mem_append.mp hm with h1 | h1
      · exact absurd h1 (hnh ec0)
      · rw [List.mem_singleton] at h1
        injection h1
    have hmr : ∀ ec1 d t, Step.read_done h ec1 d t ∉ past ++ [Step.handshake_done h ec] := by
      intro ec1 d t hm
      rcases List.mem_append.mp hm with h1 | h1
      · exact hnr ec1 d t h1
      · rw [List.mem_singleton] at h1
        cases h1
    unfold SessionPhase
    refine ⟨by rw [handshake_sessions_same]; exact hpath0, ?_, ?_⟩
    · rw [hev, List.flatMap_append, ← hev0, he]
      simp [Step.events_for]
    · cases hf : ec.failed with
      | true =>
        right; left
        refine ⟨by rw [handshake_sessions_same], ?_, ec, hf, ?_, hmh, hmr⟩
        · rw [handshake_sessions_same]; simp [hf, hr]
        · rw [hev, if_pos hf]
      | false =>
        right; right; left
        refine ⟨by rw [handshake_sessions_same], ?_, ?_, [], ?_, ?_, ?_, ?_⟩
        · rw [handshake_sessions_same]; simp [hf, hr]
        · rw [handshake_sessions_same]; exact hb
        · rw [hev, if_neg (by simp [hf])]
        · intro m hm; exact (List.not_mem_nil _ hm).elim
        · intro ec0 hm; rw [hmh ec0 hm]; exact hf
        · intro ec1 d t hm; exact absurd hm (hmr ec1 d t)
  · exact (hfalse hp).elim
  · exact (hfalse hp).elim
  · exact (hfalse hp).elim

theorem phase_read (paths : Nat → String) (past : List Step) (w : World) (h : Nat)
    (ec : ErrorCode) (data : Bytes) (t : Bool) (hP : SessionPhase paths past w h)
    (hen : (Step.read_done h ec data t).enabled w = true) :
    SessionPhase paths (past ++ [Step.read_done h ec data t])
      ((Step.read_done h ec data t).apply w) h := by
  have hr0 : 0 < (w.sessions h).reads_in_flight := by simpa [Step.enabled] using hen
  obtain ⟨hpath0, hev0, hcases⟩ := hP
  rcases hcases with ⟨_, hr, _⟩ | ⟨_, hr, _⟩ | ⟨hp, hr, hb, msgs, he, hm, hhs, hrs⟩ | ⟨_, hr, _⟩
  · omega
  · omega
  · have hev : events_of ((Step.read_done h ec data t).apply w) h =
        Event.opened h (paths h) ::
          (msgs ++ (if ec.failed = true then [terminal_event h (paths h) ec]
                    else [Event.message h (paths h) data t])) := by
      rw [read_events_exact, he, hpath0, hb]; rfl
    have hmh : ∀ ec0, Step.handshake_done h ec0 ∈ past ++ [Step.read_done h ec data t] →
        ec0.failed = false := by
      intro ec0 hmm
      rcases List.mem_append.mp hmm with h1 | h1
      · exact hhs ec0 h1
      · rw [List.mem_singleton] at h1
        cases h1
    unfold SessionPhase
    refine ⟨by rw [read_sessions_same]; exact hpath0, ?_, ?_⟩
    · rw [read_events_exact, List.flatMap_append, ← hev0, hpath0, hb]
      simp [Step.events_for]
    · cases hf : ec.failed with
      | true =>
        right; right; right
        refine ⟨by rw [read_sessions_same]; exact hp, ?_, msgs, ec, hf, ?_, hm, hmh, ?_⟩
        · rw [read_sessions_same]; simp [hf, hr]
        · rw [hev, if_pos hf]
        · intro ec1 d t1 hmm hf1
          rcases List.mem_append.mp hmm with h1 | h1
          · have := hrs ec1 d t1 h1
            rw [this] at hf1
            exact absurd hf1 (by decide)
          · rw [List.mem_singleton] at h1
            injection h1
      | false =>
        right; right; left
        refine ⟨by rw [read_sessions_same]; exact hp, ?_, ?_,
          msgs ++ [Event.message h (paths h) data t], ?_, ?_, hmh, ?_⟩
        · rw [read_sessions_same]; simp [hf, hr]
        · rw [read_sessions_same]; simp [hf]
        · rw [hev, if_neg (by simp [hf])]
        · intro m hmm
          rcases List.mem_append.mp hmm with h1 | h1
          · exact hm m h1
          · rw [List.mem_singleton] at h1; rw [h1]; rfl
        · intro ec1 d t1 hmm
          rcases List.mem_append.mp hmm with h1 | h1
          · exact hrs ec1 d t1 h1
          · rw [List.mem_singleton] at h1
            injection h1 with _ e2
            rw [e2]; exact hf
  · omega

theorem phase_step (paths : Nat → String) (past : List Step) (w : World) (st : Step)
    (h : Nat) (hP : SessionPhase paths past w h)
    (hen : st.enabled w = true) (hw : st.is_failed_write_of h = false) :
    SessionPhase paths (past ++ [st]) (st.apply w) h := by
  cases st with
  | handshake_done s ec =>
    by_cases hh : h = s
    · subst hh
      exact phase_handshake paths past w h ec hP hen
    · have hsh : ¬ s = h := fun e => hh e.symm
      refine phase_of_same paths past w _ _ h ?_ ?_ ?_ ?_ ?_ ?_ ?_ ?_ hP
      · rw [handshake_sessions_other w s h ec hh]
      · rw [handshake_sessions_other w s h ec hh]
      · rw [handshake_sessions_other w s h ec hh]
      · rw [handshake_sessions_other w s h ec hh]
      · exact outcome_events_other w _ s h (handshake_outcome w s ec) hh
      · simp [Step.events_for, hsh]
      · intro ec0 he; injection he with h1 _; exact hh h1.symm
      · intro ec0 d t he; cases he
  | read_done s ec data t =>
    by_cases hh : h = s
    · subst hh
      exact phase_read paths past w h ec data t hP hen
    · have hsh : ¬ s = h := fun e => hh e.symm
      refine phase_of_same paths past w _ _ h ?_ ?_ ?_ ?_ ?_ ?_ ?_ ?_ hP
      · rw [read_sessions_other w s h ec data t hh]
      · rw [read_sessions_other w s h ec data t hh]
      · rw [read_sessions_other w s h ec data t hh]
      · rw [read_sessions_other w s h ec data t hh]
      · exact outcome_events_other w _ s h (read_outcome w s ec data t) hh
      · simp [Step.events_for, hsh]
      · intro ec0 he; cases he
      · intro ec0 d t0 he; injection he with h1 _; exact hh h1.symm
  | write_done s ec n =>
    by_cases hh : h = s
    · subst hh
      have hf : ec.failed = false := by simpa [Step.is_failed_write_of] using hw
      refine phase_of_same paths past w _ _ h ?_ ?_ ?_ ?_ (write_ok_events w h h ec n hf)
        rfl (fun ec0 he => by cases he) (fun ec0 d t he => by cases he) hP
      · rw [write_sessions_same]
      · rw [write_sessions_same]
      · rw [write_sessions_same]
      · rw [write_sessions_same]
    · refine phase_of_same paths past w _ _ h ?_ ?_ ?_ ?_
        (outcome_events_other w _ s h (write_outcome w s ec n) hh)
        rfl (fun ec0 he => by cases he) (fun ec0 d t he => by cases he) hP
      · rw [write_sessions_other w s h ec n hh]
      · rw [write_sessions_other w s h ec n hh]
      · rw [write_sessions_other w s h ec n hh]
      · rw [write_sessions_other w s h ec n hh]
  | send l msg t =>
    obtain ⟨_, f2, f3, f4, _⟩ := send_message_loop_fields msg t l w 0 h
    exact phase_of_same paths past w _ _ h f2 f3 f4 (send_message_loop_buffer msg t l w 0 h)
      (events_of_same _ _ h (send_message_ids_dispatched w l msg t))
      rfl (fun ec0 he => by cases he) (fun ec0 d t0 he => by cases he) hP

theorem phase_run (paths : Nat → String) (h : Nat) (rest : List Step) :
    ∀ (past : List Step) (w : World), SessionPhase paths past w h →
      admissible w rest = true →
      (∀ st ∈ rest, st.is_failed_write_of h = false) →
      SessionPhase paths (past ++ rest) (run w rest) h := by
  induction rest with
  | nil => intro past w hP _ _; simpa using hP
  | cons st rest ih =>
    intro past w hP ha hw
    unfold admissible at ha
    rw [Bool.and_eq_true] at ha
    have := ih (past ++ [st]) (st.apply w)
      (phase_step paths past w st h hP ha.1 (hw st (List.mem_cons_self _ _))) ha.2
      (fun st' hst' => hw st' (List.mem_cons_of_mem _ hst'))
    simpa using this

theorem messages_then_terminal_of_messages (msgs : List Event)
    (hm : ∀ m ∈ msgs, m.is_message = true) : messages_then_terminal msgs = true := by
  induction msgs with
  | nil => rfl
  | cons a rest ih =>
    unfold messages_then_terminal
    rw [if_pos (hm a (List.mem_cons_self _ _))]
    exact ih (fun m hmm => hm m (List.mem_cons_of_mem _ hmm))

theorem messages_then_terminal_snoc (msgs : List Event) (e : Event)
    (hm : ∀ m ∈ msgs, m.is_message = true) (he : e.is_terminal = true) :
    messages_then_terminal (msgs ++ [e]) = true := by
  induction msgs with
  | nil =>
    simp only [List.nil_append]
    unfold messages_then_terminal
    split_ifs
    · rfl
    · simp [he]
  | cons a rest ih =>
    simp only [List.cons_append]
    unfold messages_then_terminal
    rw [if_pos (hm a (List.mem_cons_self _ _))]
    exact ih (fun m hmm => hm m (List.mem_cons_of_mem _ hmm))

theorem no_terminal_of_messages (msgs : List Event)
    (hm : ∀ m ∈ msgs, m.is_message = true) : msgs.any Event.is_terminal = false := by
  rw [List.any_eq_false]
  intro m hmm
  have := hm m hmm
  cases m <;> simp [Event.is_message, Event.is_terminal, Event.is_close, Event.is_error] at this ⊢

/-- C6 fails as stated, twice over.  When the handshake fails with a connection
reset the session dispatches one error event and no open.  When the connection
is reset while a write is in flight, the failed read and the failed write each
dispatch an error event, so two terminal events follow the open. -/
theorem events_not_open_messages_terminal :
    admissible (start example_ids example_paths) steps_handshake_reset = true ∧
      events_of (run (start example_ids example_paths) steps_handshake_reset) 0 =
        [Event.error 0 "/ws" connection_reset] ∧
      open_messages_terminal
        (events_of (run (start example_ids example_paths) steps_handshake_reset) 0) = false ∧
      admissible (start example_ids example_paths) steps_reset_during_write = true ∧
      events_of (run (start example_ids example_paths) steps_reset_during_write) 0 =
        [Event.opened 0 "/ws", Event.error 0 "/ws" connection_reset,
         Event.error 0 "/ws" connection_reset] ∧
      open_messages_terminal
        (events_of (run (start example_ids example_paths) steps_reset_during_write) 0) = false := by
  decide

/-- C6, amended: for every sequence of completions and `send_message` calls in
which no write completion of session `h` carries a failing code, the events
session `h` has dispatched are exactly those of its completions, in order: for
its handshake completion the open event when the code is not failing and one
terminal event when it is; for each read completion with a non-failing code
one message event with the bytes received; for a read completion with a
failing code one terminal event.  So nothing is dispatched while the handshake
is pending; when the handshake fails the session dispatches exactly one
terminal event and no open; when it succeeds the sequence is the open event,
then zero or more messages, then at most one terminal event, which is the one
of the failing read completion, with nothing after it.  After the handshake a
terminal event has been dispatched exactly when no read is in flight, and
there is never more than one read in flight. -/
theorem session_events_lifecycle (ids paths : Nat → String) (steps : List Step) (h : Nat)
    (hadm : admissible (start ids paths) steps = true)
    (hw : ∀ st ∈ steps, st.is_failed_write_of h = false) :
    events_of (run (start ids paths) steps) h =
        steps.flatMap (Step.events_for h (paths h)) ∧
      lifecycle (events_of (run (start ids paths) steps) h) = true ∧
      (∀ ec, Step.handshake_done h ec ∈ steps → ec.failed = true →
        events_of (run (start ids paths) steps) h = [terminal_event h (paths h) ec]) ∧
      (∀ ec, Step.handshake_done h ec ∈ steps → ec.failed = false →
        ∃ rest, events_of (run (start ids paths) steps) h = Event.opened h (paths h) :: rest ∧
          messages_then_terminal rest = true) ∧
      (∀ ec data t, Step.read_done h ec data t ∈ steps → ec.failed = true →
        (events_of (run (start ids paths) steps) h).getLast? =
          some (terminal_event h (paths h) ec)) ∧
      (((run (start ids paths) steps).sessions h).handshake_pending = true →
        events_of (run (start ids paths) steps) h = []) ∧
      (((run (start ids paths) steps).sessions h).handshake_pending = false →
        (has_terminal (run (start ids paths) steps) h = true ↔
          ((run (start ids paths) steps).sessions h).reads_in_flight = 0)) ∧
      ((run (start ids paths) steps).sessions h).reads_in_flight ≤ 1 := by
  have hP := phase_run paths h steps [] (start ids paths) (phase_start ids paths h) hadm hw
  rw [List.nil_append] at hP
  obtain ⟨_, hflat, hcases⟩ := hP
  refine ⟨hflat, ?_⟩
  unfold has_terminal
  rcases hcases with ⟨hp, hr, _, he, hnh, hnr⟩ | ⟨hp, hr, ec, hf, he, hhs, hnr⟩ |
    ⟨hp, hr, _, msgs, he, hm, hhs, hrs⟩ | ⟨hp, hr, msgs, ec, hf, he, hm, hhs, hrs⟩
  · rw [he, hp, hr]
    refine ⟨rfl, ?_, ?_, ?_, fun _ => rfl, fun hc => absurd hc (by decide), by omega⟩
    · intro ec0 hmem _; exact absurd hmem (hnh ec0)
    · intro ec0 hmem _; exact absurd hmem (hnh ec0)
    · intro ec1 d t hmem _; exact absurd hmem (hnr ec1 d t)
  · rw [he, hp, hr]
    refine ⟨?_, ?_, ?_, ?_, fun hc => absurd hc (by decide), fun _ => ?_, by omega⟩
    · simp only [lifecycle]
      rw [terminal_event_not_open, terminal_event_is_terminal]
      rfl
    · intro ec0 hmem _; rw [hhs ec0 hmem]
    · intro ec0 hmem hf0
      rw [hhs ec0 hmem, hf] at hf0
      exact absurd hf0 (by decide)
    · intro ec1 d t hmem _; exact absurd hmem (hnr ec1 d t)
    · simp [terminal_event_is_terminal]
  · rw [he, hp, hr]
    refine ⟨?_, ?_, ?_, ?_, fun hc => absurd hc (by decide), fun _ => ?_, by omega⟩
    · show messages_then_terminal msgs = true
      exact messages_then_terminal_of_messages msgs hm
    · intro ec0 hmem hf0
      rw [hhs ec0 hmem] at hf0
      exact absurd hf0 (by decide)
    · intro ec0 _ _
      exact ⟨msgs, rfl, messages_then_terminal_of_messages msgs hm⟩
    · intro ec1 d t hmem hf1
      rw [hrs ec1 d t hmem] at hf1
      exact absurd hf1 (by decide)
    · have hno := no_terminal_of_messages msgs hm
      simp [List.any_cons, Event.is_terminal, Event.is_close, Event.is_error]
      intro x hx
      have := List.any_eq_false.mp hno x hx
      simpa [Event.is_terminal] using this
  · rw [he, hp, hr]
    have hterm := terminal_event_is_terminal h (paths h) ec
    refine ⟨?_, ?_, ?_, ?_, fun hc => absurd hc (by decide), fun _ => ?_, by omega⟩
    · show messages_then_terminal (msgs ++ [terminal_event h (paths h) ec]) = true
      exact messages_then_terminal_snoc msgs _ hm hterm
    · intro ec0 hmem hf0
      rw [hhs ec0 hmem] at hf0
      exact absurd hf0 (by decide)
    · intro ec0 _ _
      exact ⟨_, rfl, messages_then_terminal_snoc msgs _ hm hterm⟩
    · intro ec1 d t hmem hf1
      rw [hrs ec1 d t hmem hf1, ← List.cons_append, List.getLast?_concat]
    · simp [List.any_cons, List.any_append, hterm]

/-- C6 (amended) at a concrete input: session 1 opens, receives the two bytes
`[1, 2]` as a binary message and is closed by its peer, while a write on
session 0 completes successfully. -/
theorem session_events_lifecycle_witness :
    events_of (run (start example_ids example_paths) steps_two_sessions) 1 =
        [Event.opened 1 "/ws", Event.message 1 "/ws" [1, 2] false,
         Event.close 1 "/ws" ws_error_closed] ∧
      (events_of (run (start example_ids example_paths) steps_two_sessions) 1).getLast? =
        some (terminal_event 1 (example_paths 1) ws_error_closed) :=
  ⟨(session_events_lifecycle example_ids example_paths steps_two_sessions 1
      (by decide) (by decide)).1.trans (by decide),
   (session_events_lifecycle example_ids example_paths steps_two_sessions 1
      (by decide) (by decide)).2.2.2.2.1 ws_error_closed [] true (by decide) (by decide)⟩

end khttpd.framework
